import Mathlib

/-!
Shallow embedding of the structure-reconstruction and verification core of the
Adobe-PDF-Extract / AWS-Textract proof-of-concept repository.

The definitions below translate, as directly as possible:
  * `scripts/adobe_extract.py` — `AdobePDFExtractor._extract_text_by_page`,
    `_extract_tables_from_elements`, `_extract_table_data`,
    `_extract_images_from_elements`, `_extract_image_caption`,
    `_restructure_output`;
  * `scripts/verify_extraction.py` — `ExtractionVerifier.verify_structure`,
    `verify_content_quality`, `compare_with_original`.

Modelling conventions:
  * A raw Adobe element (a JSON object) is modelled by `Element`.  The Python
    code only ever reads the keys `Path`, `Page`, `Text`, `Bounds` and
    `attributes` (with sub-keys `BBox`, `Placement`, `RowIndex`, `ColIndex`,
    `NumRow`), always through `.get` with a default, except for the presence
    test `'Text' in element`; therefore `Text` is an `Option String` while the
    other fields absorb their defaults (`Path` defaults to `""`, `Page` to `0`,
    `Bounds` to `[]`, `RowIndex`/`ColIndex`/`NumRow` to `0`).
  * Layout numbers (bounds coordinates, row/column indices) are modelled as
    `Int`; the code only compares, subtracts and takes absolute values.
  * A Python function that can raise (`KeyError` on a missing dict key,
    `IndexError` on an out-of-range list assignment, `TypeError`/
    `AttributeError` on an ill-typed value) is modelled as returning `Option`,
    with `none` meaning "raises".
  * `list.sort(key=(RowIndex, ColIndex))` is a stable sort by that key; it is
    modelled with `List.insertionSort` on the corresponding lexicographic
    total preorder, which is likewise stable.
-/

/-- The `attributes` sub-object of a raw Adobe element.  Every read in the
Python code is `attributes.get(key, default)`, so an absent attribute is
identified with its default (`BBox → []`, `RowIndex/ColIndex/NumRow → 0`);
`Placement` keeps presence because its default is the string `"Unknown"`. -/
structure Attrs where
  BBox : List Int := []
  Placement : Option String := none
  RowIndex : Int := 0
  ColIndex : Int := 0
  NumRow : Int := 0
deriving DecidableEq, Repr

/-- One raw layout element handed to the reconstruction code
(`element` in `adobe_extract.py`). -/
structure Element where
  Path : String := ""
  Page : Int := 0
  Text : Option String := none
  Bounds : List Int := []
  attributes : Attrs := {}
deriving DecidableEq, Repr

/-! ### Character-list string utilities

The Python code uses `str.startswith`, `str.endswith`, substring containment
(`'TD' in path`), `str.split('/')`, and `str.strip()`.  These are modelled on
`String.data` (the `List Char` underlying a Lean string) so that every
definition unfolds inside the kernel. -/

/-- `s.startswith p` on strings. -/
def strStartsWithB (s p : String) : Bool :=
  p.data.isPrefixOf s.data

/-- `s.endswith p` on strings. -/
def strEndsWithB (s p : String) : Bool :=
  p.data.isSuffixOf s.data

/-- Substring containment on character lists: `p` occurs inside `l`. -/
def listInfixB (p : List Char) : List Char → Bool
  | [] => p.isEmpty
  | a :: t => p.isPrefixOf (a :: t) || listInfixB p t

/-- Python `p in s` substring containment. -/
def strContainsB (s p : String) : Bool :=
  listInfixB p.data s.data

/-- Whitespace as recognised by Python `str.strip()` (the characters that
occur in this pipeline's data; exotic unicode space classes are not used by
the repository's inputs). -/
def isSpaceChar (c : Char) : Bool :=
  c = ' ' || c = '\t' || c = '\n' || c = '\r'

/-- Python `s.strip()`. -/
def pyStrip (s : String) : String :=
  String.mk (((s.data.dropWhile isSpaceChar).reverse.dropWhile isSpaceChar).reverse)

/-- `l.split(sep)` for a single separator character (used for
`path.split('/')`). -/
def splitChar (sep : Char) : List Char → List (List Char)
  | [] => [[]]
  | c :: t =>
    let r := splitChar sep t
    if c = sep then [] :: r
    else
      match r with
      | [] => [[c]]
      | h :: t2 => (c :: h) :: t2

/-- `path.split('/')[-1]`: the terminal segment of a slash-delimited path. -/
def lastSegment (path : String) : String :=
  String.mk ((splitChar '/' path.data).getLastD [])

/-- `Path(filename).stem`: the base name without its final suffix.  Only the
string's non-emptiness is ever observed downstream, so dotfile corner cases of
`pathlib` are not reproduced. -/
def pathStem (s : String) : String :=
  let name := (splitChar '/' s.data).getLastD []
  let parts := splitChar '.' name
  if parts.length ≤ 1 then String.mk name
  else String.mk (String.mk (List.intercalate ['.'] parts.dropLast)).data

/-! ### Element classification (`adobe_extract.py`)

The three path tests the assembler applies to each element, verbatim from the
`startswith` calls at lines 174, 227 and 298 of `adobe_extract.py`. -/

/-- `element.get('Path','').startswith('//Document/P') and 'Text' in element`. -/
def isParagraphEl (e : Element) : Bool :=
  strStartsWithB e.Path "//Document/P" && e.Text.isSome

/-- `element.get('Path','').startswith('//Document/Figure')`. -/
def isFigureEl (e : Element) : Bool :=
  strStartsWithB e.Path "//Document/Figure"

/-- `element.get('Path','').startswith('//Document/Table')`. -/
def isTableEl (e : Element) : Bool :=
  strStartsWithB e.Path "//Document/Table"

/-! ### Caption matching (`AdobePDFExtractor._extract_image_caption`) -/

/-- The candidate filter inside `_extract_image_caption`: a paragraph element
with at least four bound coordinates whose bottom-left y is strictly below the
image's and whose x offset is under 50.  Returns `(text, distance)` exactly as
the Python dict `{'text': ..., 'distance': ...}` records it. -/
def captionCandidate (img : Element) (e : Element) : Option (String × Int) :=
  if strStartsWithB e.Path "//Document/P" && e.Text.isSome then
    let tb := e.Bounds
    let ib := img.Bounds
    if tb.length ≥ 4 then
      if tb.getD 1 0 < ib.getD 1 0 ∧ (tb.getD 0 0 - ib.getD 0 0).natAbs < 50 then
        some (e.Text.getD "", ib.getD 1 0 - tb.getD 1 0)
      else none
    else none
  else none

/-- `_extract_image_caption(image_element, all_elements)`.  `min(..., key=...)`
in Python returns the first element attaining the minimum; the fold below does
the same. -/
def extractImageCaption (img : Element) (all : List Element) : Option String :=
  if img.Bounds.length < 4 then none
  else
    match all.filterMap (captionCandidate img) with
    | [] => none
    | c :: cs =>
      let closest := cs.foldl (fun best x => if x.2 < best.2 then x else best) c
      if closest.2 < 100 then some closest.1 else none

/-! ### Table grid building (`AdobePDFExtractor._extract_table_data`) -/

/-- Python list assignment `row[i] = s` guarded by `if i < len(row)` as in
`_extract_table_data`: indices in `[0, len)` assign directly, negative indices
in `[-len, 0)` wrap around, indices below `-len` raise `IndexError` (`none`);
when the guard `i < len(row)` fails the assignment is skipped. -/
def pySetItem (row : List String) (i : Int) (s : String) : Option (List String) :=
  if i < (row.length : Int) then
    if 0 ≤ i then some (row.set i.toNat s)
    else if 0 ≤ i + (row.length : Int) then some (row.set (i + (row.length : Int)).toNat s)
    else none
  else some row

/-- `element.get('attributes', {}).get('RowIndex', 0)`. -/
def rowIndexOf (e : Element) : Int := e.attributes.RowIndex

/-- `element.get('attributes', {}).get('ColIndex', 0)`. -/
def colIndexOf (e : Element) : Int := e.attributes.ColIndex

/-- The cell collection loop of `_extract_table_data`: every element whose
path starts with the table's path and contains `'TD'`. -/
def cellsOf (tableEl : Element) (all : List Element) : List Element :=
  all.filter fun e => strStartsWithB e.Path tableEl.Path && strContainsB e.Path "TD"

/-- The text recovered for one cell: concatenate `Text + " "` over every
element whose path starts with the cell's path and ends with `'/P'` and that
carries text, then strip. -/
def cellTextOf (cellPath : String) (all : List Element) : String :=
  pyStrip ((all.filter fun e2 =>
      strStartsWithB e2.Path cellPath && strEndsWithB e2.Path "/P" && e2.Text.isSome).foldl
    (fun s e2 => s ++ e2.Text.getD "" ++ " ") "")

/-- The sort key order `(RowIndex, ColIndex)` used by `cells.sort(key=...)`,
as a total preorder. -/
def cellLE (a b : Element) : Prop :=
  rowIndexOf a < rowIndexOf b ∨
    (rowIndexOf a = rowIndexOf b ∧ colIndexOf a ≤ colIndexOf b)

instance : DecidableRel cellLE := fun a b => by
  unfold cellLE; infer_instance

instance : IsTotal Element cellLE where
  total a b := by
    unfold cellLE
    rcases lt_trichotomy (rowIndexOf a) (rowIndexOf b) with h | h | h
    · exact Or.inl (Or.inl h)
    · rcases le_total (colIndexOf a) (colIndexOf b) with h2 | h2
      · exact Or.inl (Or.inr ⟨h, h2⟩)
      · exact Or.inr (Or.inr ⟨h.symm, h2⟩)
    · exact Or.inr (Or.inl h)

instance : IsTrans Element cellLE where
  trans a b c hab hbc := by
    unfold cellLE at *
    rcases hab with h1 | ⟨h1, h1c⟩ <;> rcases hbc with h2 | ⟨h2, h2c⟩
    · exact Or.inl (h1.trans h2)
    · exact Or.inl (h2 ▸ h1)
    · exact Or.inl (h1 ▸ h2)
    · exact Or.inr ⟨h1.trans h2, h1c.trans h2c⟩

/-- Python `max` over a list of ints (the list is non-empty at every use). -/
def pyMaxList : List Int → Int
  | [] => 0
  | x :: xs => xs.foldl max x

/-- One iteration of the row-assembly loop of `_extract_table_data`, acting on
the state `(table_data, current_row, current_row_idx)`.  `width` is the fixed
row width `max(ColIndex) + 1` (clamped to `0` for negative values, matching
`[''] * n == []` for `n <= 0`). -/
def gridStep (width : Nat) (st : List (List String) × List String × Int)
    (c : Int × Int × String) : Option (List (List String) × List String × Int) :=
  (pySetItem (if c.1 ≠ st.2.2 then List.replicate width "" else st.2.1) c.2.1 c.2.2).map
    fun cur2 =>
      (if c.1 ≠ st.2.2 then (if st.2.1.isEmpty then st.1 else st.1 ++ [st.2.1]) else st.1,
        cur2,
        if c.1 ≠ st.2.2 then c.1 else st.2.2)

/-- The row-assembly loop over the sorted cells, threading the possibility of
an `IndexError` from the list assignment. -/
def gridRun (width : Nat) (items : List (Int × Int × String))
    (st : List (List String) × List String × Int) :
    Option (List (List String) × List String × Int) :=
  items.foldl (fun acc it => acc.bind fun s => gridStep width s it) (some st)

/-- `_extract_table_data(table_element, all_elements)`: collect the cells,
sort them by `(RowIndex, ColIndex)`, fix the width from the full cell set, and
walk the cells flushing a row whenever `RowIndex` changes (initial sentinel
`current_row_idx = -1`, initial `current_row = []`). -/
def extractTableData (tableEl : Element) (all : List Element) :
    Option (List (List String)) :=
  let cells := cellsOf tableEl all
  match cells with
  | [] => some []
  | c0 :: rest =>
    let sorted := List.insertionSort cellLE (c0 :: rest)
    let width : Int := pyMaxList ((c0 :: rest).map colIndexOf) + 1
    let items := sorted.map fun c => (rowIndexOf c, colIndexOf c, cellTextOf c.Path all)
    (gridRun width.toNat items ([], [], -1)).map fun st =>
      if st.2.1.isEmpty then st.1 else st.1 ++ [st.2.1]

/-- The number of times the row index changes while walking the cell list,
starting from the sentinel `current_row_idx` value `p`; each change is one row
started by the loop of `_extract_table_data`. -/
def chg : Int → List Int → Nat
  | _, [] => 0
  | p, x :: xs => (if x ≠ p then 1 else 0) + chg x xs

/-! ### Derived document model (`_restructure_output` output shape) -/

/-- A derived image record (`image_info` in `_extract_images_from_elements`). -/
structure Image where
  image_id : String
  path : String
  caption : Option String
  bounds : List Int
  bbox : List Int
  placement : String
deriving DecidableEq, Repr

/-- A derived table record (`table_info` in `_extract_tables_from_elements`). -/
structure Table where
  table_id : String
  data : List (List String)
  bounds : List Int
  bbox : List Int
  num_rows : Int
  placement : String
deriving DecidableEq, Repr

/-- A derived page (`page_data` in `_restructure_output`). -/
structure Page where
  page_number : Int
  text : String
  tables : List Table
  images : List Image
deriving DecidableEq, Repr

/-- The `metadata` object of the restructured output. -/
structure DocMetadata where
  source : String
  page_count : Int
  pdf_version : String
  language : String
  extraction_timestamp : String
deriving DecidableEq, Repr

/-- The restructured document (`restructured` in `_restructure_output`). -/
structure Document where
  document_id : String
  metadata : DocMetadata
  pages : List Page
deriving DecidableEq, Repr

/-! ### Page-bucketed extraction (`_extract_text_by_page`,
`_extract_tables_from_elements`, `_extract_images_from_elements`)

Each of the three helpers initialises `{i: ... for i in range(page_count)}`
and indexes the dict with `element.get('Page', 0)`; a page outside
`[0, page_count)` raises `KeyError` (`none`).  The dict with keys
`0..page_count-1` is modelled as a list of length `page_count.toNat`
(`range(n)` is empty for `n <= 0`, matching `Int.toNat`). -/

/-- One iteration of the accumulation loop of `_extract_text_by_page`:
`text_by_page[page_num] += element.get('Text', '') + " "` for paragraph
elements (`KeyError` when the page is outside the dict). -/
def textStep (acc : Option (List String)) (e : Element) : Option (List String) :=
  acc.bind fun m =>
    if isParagraphEl e then
      if 0 ≤ e.Page ∧ e.Page.toNat < m.length then
        some (m.set e.Page.toNat (m.getD e.Page.toNat "" ++ e.Text.getD "" ++ " "))
      else none
    else some m

/-- `_extract_text_by_page(elements, page_count)` including the final
per-page `strip()`. -/
def textByPage (elements : List Element) (pageCount : Int) : Option (List String) :=
  (elements.foldl textStep (some (List.replicate pageCount.toNat ""))).map
    (List.map pyStrip)

/-- One iteration of the scan shared by `_extract_tables_from_elements` and
`_extract_images_from_elements`: for an element matching `pred`, look up its
page bucket (`KeyError` outside range) and append the record built by `mk`
(which may itself fail, as `_extract_table_data` can). -/
def classStep (pred : Element → Bool) (mk : Element → Nat → Option α)
    (acc : Option (List (List α))) (e : Element) : Option (List (List α)) :=
  acc.bind fun m =>
    if pred e then
      if 0 ≤ e.Page ∧ e.Page.toNat < m.length then
        (mk e (m.getD e.Page.toNat []).length).map fun x =>
          m.set e.Page.toNat (m.getD e.Page.toNat [] ++ [x])
      else none
    else some m

/-- The page-bucketed scan shared by `_extract_tables_from_elements` and
`_extract_images_from_elements`. -/
def classFold (pred : Element → Bool) (mk : Element → Nat → Option α)
    (elements : List Element) (pageCount : Int) : Option (List (List α)) :=
  elements.foldl (classStep pred mk) (some (List.replicate pageCount.toNat []))

/-- The table record built for one table element
(`table_info` in `_extract_tables_from_elements`). -/
def mkTableInfo (elements : List Element) (e : Element) (countSoFar : Nat) :
    Option Table :=
  (extractTableData e elements).map fun d =>
    { table_id := "t" ++ toString (countSoFar + 1)
      data := d
      bounds := e.Bounds
      bbox := e.attributes.BBox
      num_rows := e.attributes.NumRow
      placement := e.attributes.Placement.getD "Unknown" }

/-- `_extract_tables_from_elements(elements, page_count)`. -/
def tablesByPage (elements : List Element) (pageCount : Int) :
    Option (List (List Table)) :=
  classFold isTableEl (mkTableInfo elements) elements pageCount

/-- The image record built for one figure element
(`image_info` in `_extract_images_from_elements`). -/
def mkImageInfo (elements : List Element) (e : Element) (countSoFar : Nat) :
    Option Image :=
  let iid := "i" ++ toString (countSoFar + 1)
  some
    { image_id := iid
      path := "images/page" ++ toString (e.Page + 1) ++ "_" ++ iid ++ ".png"
      caption := extractImageCaption e elements
      bounds := e.Bounds
      bbox := e.attributes.BBox
      placement := e.attributes.Placement.getD "Unknown" }

/-- `_extract_images_from_elements(elements, page_count)`. -/
def imagesByPage (elements : List Element) (pageCount : Int) :
    Option (List (List Image)) :=
  classFold isFigureEl (mkImageInfo elements) elements pageCount

/-- `_restructure_output(adobe_data, pdf_filename)`, with the page count,
element list and the passthrough metadata strings taken as parameters (the
Python reads them off `adobe_data` with defaults before doing anything else). -/
def restructureOutput (elements : List Element) (pageCount : Int)
    (pdfFilename pdfVersion language timestamp : String) : Option Document :=
  (textByPage elements pageCount).bind fun txts =>
  (tablesByPage elements pageCount).bind fun tbls =>
  (imagesByPage elements pageCount).map fun imgs =>
  { document_id := pathStem pdfFilename
    metadata :=
      { source := pdfFilename
        page_count := pageCount
        pdf_version := pdfVersion
        language := language
        extraction_timestamp := timestamp }
    pages := (List.range pageCount.toNat).map fun i =>
      { page_number := Int.ofNat i + 1
        text := txts.getD i ""
        tables := tbls.getD i []
        images := imgs.getD i [] } }

/-! ### A JSON value model for `verify_extraction.verify_structure`

`ExtractionVerifier.verify_structure` receives an arbitrary decoded-JSON dict,
so it must be modelled over a JSON value type rather than over the typed
`Document`.  Python dict/str/list operations that raise on ill-typed values
(`.get` on a non-dict → `AttributeError`, `len` of an int → `TypeError`,
iterating an int → `TypeError`, `in` on an int → `TypeError`) are modelled by
`Option`-returning accessors.  JSON booleans/floats do not occur in this
pipeline's documents and are omitted. -/

/-- A decoded JSON value. -/
inductive JVal where
  | null : JVal
  | int : Int → JVal
  | str : String → JVal
  | arr : List JVal → JVal
  | obj : List (String × JVal) → JVal
deriving Repr

/-- A decoded JSON object (a Python dict with string keys). -/
abbrev JObj := List (String × JVal)

/-- Dict lookup: `o[k]` as an `Option`. -/
def jLookup (o : JObj) (k : String) : Option JVal :=
  (o.find? fun kv => kv.1 = k).map (·.2)

/-- `k in o` for a dict. -/
def jHasKey (o : JObj) (k : String) : Bool :=
  (jLookup o k).isSome

/-- Python `len(v)`: defined for strings, lists and dicts, `TypeError`
otherwise. -/
def pyLen : JVal → Option Nat
  | .str s => some s.length
  | .arr l => some l.length
  | .obj o => some o.length
  | _ => none

/-- Python truthiness of a JSON value. -/
def pyTruthy : JVal → Bool
  | .null => false
  | .int n => n ≠ 0
  | .str s => s ≠ ""
  | .arr l => ¬ l.isEmpty
  | .obj o => ¬ o.isEmpty

/-- `v.get(k, d)`: succeeds only on a dict (`AttributeError` otherwise). -/
def jGetD (v : JVal) (k : String) (d : JVal) : Option JVal :=
  match v with
  | .obj o => some ((jLookup o k).getD d)
  | _ => none

/-- Python `k in v` for a string key `k`: key membership for a dict, value
membership for a list (a non-string list entry never equals a string),
substring test for a string, `TypeError` otherwise. -/
def pyInJ (k : String) (v : JVal) : Option Bool :=
  match v with
  | .obj o => some (jHasKey o k)
  | .arr l => some (l.any fun x => match x with | .str s => s = k | _ => false)
  | .str s => some (strContainsB s k)
  | _ => none

/-- Python iteration `for x in v`: list elements, string characters, or dict
keys; `TypeError` otherwise. -/
def jElems : JVal → Option (List JVal)
  | .arr l => some l
  | .str s => some (s.data.map fun c => .str (String.mk [c]))
  | .obj o => some (o.map fun kv => .str kv.1)
  | _ => none

/-- Python `v != n` for an int `n` on the right: numeric comparison for an
int, `True` for every other JSON value. -/
def pyNeIntJ (v : JVal) (n : Int) : Bool :=
  match v with
  | .int m => m ≠ n
  | _ => true

/-- `str(v)` as interpolated into the issue messages.  Exact for the values
the verification issues actually interpolate (ints, strings, `None`); the
container reprs are abbreviated. -/
def pyStr : JVal → String
  | .int n => toString n
  | .str s => s
  | .null => "None"
  | .arr _ => "[...]"
  | .obj _ => "[object]"

/-- The `structure_summary` dict computed at the end of `verify_structure`. -/
structure StructSummary where
  total_pages : Nat
  total_tables : Nat
  total_images : Nat
  total_text_length : Nat
  pages_with_content : Nat
deriving DecidableEq, Repr

/-- The result dict of `verify_structure`; `structure_summary := none` is the
initial empty dict `{}` (the early-return path leaves it empty). -/
structure StructureResult where
  structure_valid : Bool
  issues : List String
  structure_summary : Option StructSummary
deriving DecidableEq, Repr

/-- The missing-required-key issues of the first loop of `verify_structure`. -/
def requiredKeyIssues (data : JObj) : List String :=
  (["document_id", "metadata", "pages"].filter fun k => ¬ jHasKey data k).map
    fun k => "Missing required key: " ++ k

/-- The missing-metadata-key issues (second loop of `verify_structure`). -/
def metadataIssues (metadata : JVal) : Option (List String) :=
  (pyInJ "source" metadata).bind fun b1 =>
  (pyInJ "page_count" metadata).map fun b2 =>
  (if b1 then [] else ["Missing metadata key: source"]) ++
    (if b2 then [] else ["Missing metadata key: page_count"])

/-- The per-table checks inside the per-page loop of `verify_structure`. -/
def tableIssue1 (pageNum : Nat) (j : Nat) (t : JVal) : Option (List String) :=
  (jGetD t "table_id" .null).bind fun tid =>
  (jGetD t "data" .null).map fun dat =>
  (if pyTruthy tid then []
   else ["Page " ++ toString pageNum ++ ": Table t" ++ toString (j + 1) ++ " missing table_id"]) ++
    (if pyTruthy dat then []
     else ["Page " ++ toString pageNum ++ ": Table t" ++ toString (j + 1) ++ " missing data"])

/-- The per-image checks inside the per-page loop of `verify_structure`. -/
def imageIssue1 (pageNum : Nat) (j : Nat) (im : JVal) : Option (List String) :=
  (jGetD im "image_id" .null).bind fun iid =>
  (jGetD im "path" .null).map fun pth =>
  (if pyTruthy iid then []
   else ["Page " ++ toString pageNum ++ ": Image i" ++ toString (j + 1) ++ " missing image_id"]) ++
    (if pyTruthy pth then []
     else ["Page " ++ toString pageNum ++ ": Image i" ++ toString (j + 1) ++ " missing path"])

/-- An indexed `enumerate` loop accumulating issue lists, threading failure. -/
def enumIssues (f : Nat → JVal → Option (List String)) (start : Nat) :
    List JVal → Option (List String)
  | [] => some []
  | v :: vs =>
    (f start v).bind fun a => (enumIssues f (start + 1) vs).map fun b => a ++ b

/-- One page's checks in `verify_structure` (`i` is the 0-based enumerate
index). -/
def pageIssues1 (i : Nat) (page : JVal) : Option (List String) :=
  let pn := i + 1
  (pyInJ "page_number" page).bind fun b1 =>
  (pyInJ "text" page).bind fun b2 =>
  (pyInJ "tables" page).bind fun b3 =>
  (pyInJ "images" page).bind fun b4 =>
  (jGetD page "page_number" .null).bind fun pnv =>
  (jGetD page "tables" (.arr [])).bind fun tablesV =>
  (jElems tablesV).bind fun tlist =>
  (enumIssues (tableIssue1 pn) 0 tlist).bind fun tIss =>
  (jGetD page "images" (.arr [])).bind fun imagesV =>
  (jElems imagesV).bind fun ilist =>
  (enumIssues (imageIssue1 pn) 0 ilist).map fun iIss =>
  ((if b1 then [] else ["Page " ++ toString pn ++ ": Missing required key: page_number"]) ++
   (if b2 then [] else ["Page " ++ toString pn ++ ": Missing required key: text"]) ++
   (if b3 then [] else ["Page " ++ toString pn ++ ": Missing required key: tables"]) ++
   (if b4 then [] else ["Page " ++ toString pn ++ ": Missing required key: images"])) ++
  (if pyNeIntJ pnv (Int.ofNat pn) then
    ["Page " ++ toString pn ++ ": Page number mismatch: expected " ++ toString pn ++
      ", got " ++ pyStr pnv]
   else []) ++
  tIss ++ iIss

/-- `sum(f(page) for page in pages)` threading per-page failure. -/
def sumOption (l : List JVal) (f : JVal → Option Nat) : Option Nat :=
  l.foldl (fun acc p => acc.bind fun n => (f p).map (n + ·)) (some 0)

/-- The `structure_summary` computation at the end of `verify_structure`. -/
def structSummaryOf (nPages : Nat) (pageList : List JVal) : Option StructSummary :=
  (sumOption pageList fun p => (jGetD p "tables" (.arr [])).bind pyLen).bind fun tt =>
  (sumOption pageList fun p => (jGetD p "images" (.arr [])).bind pyLen).bind fun ti =>
  (sumOption pageList fun p => (jGetD p "text" (.str "")).bind pyLen).bind fun tl =>
  (sumOption pageList fun p =>
      (jGetD p "text" .null).bind fun tx =>
      (jGetD p "tables" .null).bind fun tb =>
      (jGetD p "images" .null).map fun im =>
      if pyTruthy tx || pyTruthy tb || pyTruthy im then 1 else 0).map fun pc =>
  { total_pages := nPages
    total_tables := tt
    total_images := ti
    total_text_length := tl
    pages_with_content := pc }

/-- `ExtractionVerifier.verify_structure(data)`.  The first loop records
missing top-level keys and, if any is missing, the function returns
immediately; otherwise every remaining check accumulates into `issues`, the
summary is computed, and `structure_valid` is finally cleared iff `issues` is
non-empty. -/
def verifyStructure (data : JObj) : Option StructureResult :=
  let missing := requiredKeyIssues data
  if missing.isEmpty then
    let metadata := (jLookup data "metadata").getD (.obj [])
    let pages := (jLookup data "pages").getD (.arr [])
    (metadataIssues metadata).bind fun mIss =>
    (jGetD metadata "page_count" (.int 0)).bind fun expected =>
    (pyLen pages).bind fun nPages =>
    let cntIss :=
      if pyNeIntJ expected (Int.ofNat nPages) then
        ["Page count mismatch: expected " ++ pyStr expected ++ ", got " ++ toString nPages]
      else []
    (jElems pages).bind fun pageList =>
    (enumIssues pageIssues1 0 pageList).bind fun pgIss =>
    (structSummaryOf nPages pageList).map fun summ =>
    let issues := mIss ++ cntIss ++ pgIss
    { structure_valid := issues.isEmpty
      issues := issues
      structure_summary := some summ }
  else
    some { structure_valid := false, issues := missing, structure_summary := none }

/-! ### Encoding an assembled `Document` back to JSON

The dict built by `_restructure_output` is exactly this JSON shape; encoding
the typed `Document` lets `verify_structure` be applied to assembly output. -/

/-- Encode a derived table record to its JSON dict. -/
def tableToJ (t : Table) : JVal :=
  .obj [("table_id", .str t.table_id),
        ("data", .arr (t.data.map fun r => .arr (r.map .str))),
        ("bounds", .arr (t.bounds.map .int)),
        ("bbox", .arr (t.bbox.map .int)),
        ("num_rows", .int t.num_rows),
        ("placement", .str t.placement)]

/-- Encode a derived image record to its JSON dict. -/
def imageToJ (im : Image) : JVal :=
  .obj [("image_id", .str im.image_id),
        ("path", .str im.path),
        ("caption", match im.caption with | some s => .str s | none => .null),
        ("bounds", .arr (im.bounds.map .int)),
        ("bbox", .arr (im.bbox.map .int)),
        ("placement", .str im.placement)]

/-- Encode a derived page to its JSON dict. -/
def pageToJ (p : Page) : JVal :=
  .obj [("page_number", .int p.page_number),
        ("text", .str p.text),
        ("tables", .arr (p.tables.map tableToJ)),
        ("images", .arr (p.images.map imageToJ))]

/-- Encode an assembled document to the JSON dict `verify_structure` sees. -/
def docToJ (d : Document) : JObj :=
  [("document_id", .str d.document_id),
   ("metadata", .obj [("source", .str d.metadata.source),
                      ("page_count", .int d.metadata.page_count),
                      ("pdf_version", .str d.metadata.pdf_version),
                      ("language", .str d.metadata.language),
                      ("extraction_timestamp", .str d.metadata.extraction_timestamp)]),
   ("pages", .arr (d.pages.map pageToJ))]

/-! ### Content-quality verification
(`ExtractionVerifier.verify_content_quality`)

The claims quantify over assembled `Document`s, so this verifier is modelled
directly on the typed document (on such values every dict access in the
Python succeeds and behaves as typed field access). -/

/-- The `content_summary` dict of `verify_content_quality`. -/
structure QualitySummary where
  text_pages : Nat
  table_pages : Nat
  image_pages : Nat
  total_tables : Nat
  total_images : Nat
  tables_with_data : Nat
  images_with_captions : Nat
  images_with_bounds : Nat
deriving DecidableEq, Repr

/-- The result of `verify_content_quality`. -/
structure QualityResult where
  content_quality : String
  warnings : List String
  content_summary : QualitySummary
deriving DecidableEq, Repr

/-- `bool(data and any(any(cell.strip() for cell in row) for row in data))`. -/
def tableHasData (data : List (List String)) : Bool :=
  ¬ data.isEmpty && data.any fun row => row.any fun cell => pyStrip cell ≠ ""

/-- `image.get("bounds") or image.get("bbox", [])`. -/
def imageEffBounds (im : Image) : List Int :=
  if im.bounds.isEmpty then im.bbox else im.bounds

/-- The `empty_pages` list collected by `verify_content_quality` (1-based
page numbers of pages with no text, no tables, no images). -/
def emptyPagesOf (pages : List Page) : List Nat :=
  (pages.enum.filter fun pr =>
    pr.2.text = "" ∧ pr.2.tables.isEmpty ∧ pr.2.images.isEmpty).map fun pr => pr.1 + 1

/-- The `text_stats` entries (page number, `has_content`), one per page with
non-empty text. -/
def textStatsOf (pages : List Page) : List (Nat × Bool) :=
  pages.enum.filterMap fun pr =>
    if pr.2.text ≠ "" then some (pr.1 + 1, decide (pyStrip pr.2.text ≠ "")) else none

/-- The `table_stats` entries (page number, `has_data`), one per table with
non-empty `data` (tables with empty or absent data are skipped entirely by
the `if data:` guard). -/
def tableStatsOf (pages : List Page) : List (Nat × Bool) :=
  pages.enum.flatMap fun pr =>
    pr.2.tables.filterMap fun t =>
      if ¬ t.data.isEmpty then some (pr.1 + 1, tableHasData t.data) else none

/-- The `image_stats` entries (page number, `has_caption`, `has_bounds`),
one per image. -/
def imageStatsOf (pages : List Page) : List (Nat × Bool × Bool) :=
  pages.enum.flatMap fun pr =>
    pr.2.images.map fun im =>
      (pr.1 + 1,
        (match im.caption with | some s => decide (s ≠ "") | none => false),
        decide ((imageEffBounds im).length ≥ 4))

/-- `ExtractionVerifier.verify_content_quality(data)` on a typed document. -/
def verifyContentQuality (doc : Document) : QualityResult :=
  let pages := doc.pages
  let emptyPages := emptyPagesOf pages
  let tableStats := tableStatsOf pages
  let imageStats := imageStatsOf pages
  let summary : QualitySummary :=
    { text_pages := ((textStatsOf pages).filter fun p => p.2).length
      table_pages := ((tableStats.map fun t => t.1).dedup).length
      image_pages := ((imageStats.map fun i => i.1).dedup).length
      total_tables := tableStats.length
      total_images := imageStats.length
      tables_with_data := (tableStats.filter fun t => t.2).length
      images_with_captions := (imageStats.filter fun i => i.2.1).length
      images_with_bounds := (imageStats.filter fun i => i.2.2).length }
  let tWarn := summary.tables_with_data < summary.total_tables
  let iWarn := summary.images_with_bounds < summary.total_images
  { content_quality :=
      if ¬ emptyPages.isEmpty ∨ tWarn ∨ iWarn then "warning" else "good"
    warnings :=
      (if emptyPages.isEmpty then []
       else ["Empty pages detected: " ++ toString emptyPages]) ++
      (if tWarn then ["Some tables have no data"] else []) ++
      (if iWarn then ["Some images missing bounds"] else [])
    content_summary := summary }

/-! ### Cross-comparison (`ExtractionVerifier.compare_with_original`)

The file-loading wrapper is out of scope; the comparison core receives the
restructured document (typed, as the claims quantify over `Document`s), the
original `extended_metadata.page_count`, and the original raw element list. -/

/-- The result of the comparison core. -/
structure ComparisonResult where
  comparison_valid : Bool
  differences : List String
  page_count_match : Bool
deriving DecidableEq, Repr

/-- Increment the tally for key `k` in an insertion-ordered association list
(`element_counts[t] = element_counts.get(t, 0) + 1` on a Python dict keeps
first-insertion order). -/
def tallyAdd (m : List (String × Nat)) (k : String) : List (String × Nat) :=
  match m with
  | [] => [(k, 1)]
  | kv :: rest => if kv.1 = k then (kv.1, kv.2 + 1) :: rest else kv :: tallyAdd rest k

/-- The raw per-terminal-segment tally over elements whose path starts with
`//Document/`. -/
def elementTally (els : List Element) : List (String × Nat) :=
  els.foldl (fun m e =>
    if strStartsWithB e.Path "//Document/" then tallyAdd m (lastSegment e.Path) else m) []

/-- `sum(len(page.get("tables", [])) for page in ...)` on the typed document. -/
def docTotalTables (doc : Document) : Nat :=
  (doc.pages.map fun p => p.tables.length).sum

/-- Total image count of the typed document. -/
def docTotalImages (doc : Document) : Nat :=
  (doc.pages.map fun p => p.images.length).sum

/-- The comparison core of `compare_with_original`. -/
def compareWithOriginal (restructured : Document) (originalPageCount : Int)
    (originalElements : List Element) : ComparisonResult :=
  let rp := restructured.metadata.page_count
  let diffs0 :=
    if rp ≠ originalPageCount then
      ["Page count: restructured=" ++ toString rp ++ ", original=" ++
        toString originalPageCount]
    else []
  let tCount := docTotalTables restructured
  let iCount := docTotalImages restructured
  let diffs := (elementTally originalElements).foldl (fun acc kv =>
      if kv.1 = "Table" ∧ kv.2 ≠ tCount then
        acc ++ ["Table count: restructured=" ++ toString tCount ++ ", original=" ++
          toString kv.2]
      else if kv.1 = "Figure" ∧ kv.2 ≠ iCount then
        acc ++ ["Image count: restructured=" ++ toString iCount ++ ", original=" ++
          toString kv.2]
      else acc) diffs0
  { comparison_valid := diffs.isEmpty
    differences := diffs
    page_count_match := rp = originalPageCount }

/-- The vertical gap `image_y0 - text_y0` used by `_extract_image_caption`. -/
def capGap (img e : Element) : Int :=
  img.Bounds.getD 1 0 - e.Bounds.getD 1 0

/-- The candidacy conditions of `_extract_image_caption`, as a proposition:
paragraph path with text, at least four bound coordinates, strictly below the
image, horizontal offset under 50. -/
def captionCandidateCond (img e : Element) : Prop :=
  strStartsWithB e.Path "//Document/P" = true ∧ e.Text.isSome = true ∧
  4 ≤ e.Bounds.length ∧
  e.Bounds.getD 1 0 < img.Bounds.getD 1 0 ∧
  (e.Bounds.getD 0 0 - img.Bounds.getD 0 0).natAbs < 50

instance (img e : Element) : Decidable (captionCandidateCond img e) := by
  unfold captionCandidateCond
  infer_instance

/-- Lookup in the insertion-ordered tally. -/
def tallyLookup (m : List (String × Nat)) (k : String) : Option Nat :=
  (m.find? fun kv => kv.1 = k).map (·.2)

/-- The difference strings one tally entry contributes in the comparison
loop of `compare_with_original`. -/
def compareDiffExtra (tCount iCount : Nat) (kv : String × Nat) : List String :=
  if kv.1 = "Table" ∧ kv.2 ≠ tCount then
    ["Table count: restructured=" ++ toString tCount ++ ", original=" ++ toString kv.2]
  else if kv.1 = "Figure" ∧ kv.2 ≠ iCount then
    ["Image count: restructured=" ++ toString iCount ++ ", original=" ++ toString kv.2]
  else []

/-! ## Lemma infrastructure

General facts about the page-bucketed folds and the assembly pipeline, used
by several claims below. -/

theorem textStep_none (e : Element) : textStep none e = none := rfl

theorem classStep_none (pred : Element → Bool) (mk : Element → Nat → Option α)
    (e : Element) : classStep pred mk none e = none := rfl

theorem foldl_textStep_none (els : List Element) :
    els.foldl textStep none = none := by
  induction els with
  | nil => rfl
  | cons e es ih => rw [List.foldl_cons, textStep_none]; exact ih

theorem foldl_classStep_none (pred : Element → Bool) (mk : Element → Nat → Option α)
    (els : List Element) : els.foldl (classStep pred mk) none = none := by
  induction els with
  | nil => rfl
  | cons e es ih => rw [List.foldl_cons, classStep_none]; exact ih

theorem textStep_some_length {m m₂ : List String} {e : Element}
    (h : textStep (some m) e = some m₂) : m₂.length = m.length := by
  simp only [textStep, Option.some_bind] at h
  split at h
  · split at h
    · cases h; simp
    · cases h
  · cases h; rfl

theorem classStep_some_length {pred : Element → Bool} {mk : Element → Nat → Option α}
    {m m₂ : List (List α)} {e : Element}
    (h : classStep pred mk (some m) e = some m₂) : m₂.length = m.length := by
  simp only [classStep, Option.some_bind] at h
  split at h
  · split at h
    · rcases Option.map_eq_some'.mp h with ⟨x, _, hx⟩
      rw [← hx]; simp
    · cases h
  · cases h; rfl

theorem textFold_length (els : List Element) :
    ∀ m m', els.foldl textStep (some m) = some m' → m'.length = m.length := by
  induction els with
  | nil => intro m m' h; cases h; rfl
  | cons e es ih =>
    intro m m' h
    rw [List.foldl_cons] at h
    cases hs : textStep (some m) e with
    | none => rw [hs, foldl_textStep_none] at h; cases h
    | some m₂ =>
      rw [hs] at h
      rw [ih m₂ m' h]
      exact textStep_some_length hs

theorem classFold_length {pred : Element → Bool} {mk : Element → Nat → Option α}
    (els : List Element) :
    ∀ m m', els.foldl (classStep pred mk) (some m) = some m' → m'.length = m.length := by
  induction els with
  | nil => intro m m' h; cases h; rfl
  | cons e es ih =>
    intro m m' h
    rw [List.foldl_cons] at h
    cases hs : classStep pred mk (some m) e with
    | none => rw [hs, foldl_classStep_none] at h; cases h
    | some m₂ =>
      rw [hs] at h
      rw [ih m₂ m' h]
      exact classStep_some_length hs

theorem textFold_some (els : List Element) :
    ∀ m : List String,
      (∀ e ∈ els, isParagraphEl e = true → 0 ≤ e.Page ∧ e.Page.toNat < m.length) →
      ∃ m', els.foldl textStep (some m) = some m' := by
  induction els with
  | nil => intro m _; exact ⟨m, rfl⟩
  | cons e es ih =>
    intro m hm
    rw [List.foldl_cons]
    cases hp : isParagraphEl e with
    | false =>
      have hstep : textStep (some m) e = some m := by
        simp [textStep, hp]
      rw [hstep]
      exact ih m fun e' he' => hm e' (List.mem_cons_of_mem _ he')
    | true =>
      have hok := hm e (List.mem_cons_self _ _) hp
      have hstep : textStep (some m) e =
          some (m.set e.Page.toNat (m.getD e.Page.toNat "" ++ e.Text.getD "" ++ " ")) := by
        simp only [textStep, Option.some_bind, hp, if_true]
        rw [if_pos hok]
      rw [hstep]
      exact ih _ fun e' he' => by
        simpa using hm e' (List.mem_cons_of_mem _ he')

theorem classFold_some {pred : Element → Bool} {mk : Element → Nat → Option α}
    (els : List Element) :
    ∀ m : List (List α),
      (∀ e ∈ els, ∀ n, pred e = true → (mk e n).isSome = true) →
      (∀ e ∈ els, pred e = true → 0 ≤ e.Page ∧ e.Page.toNat < m.length) →
      ∃ m', els.foldl (classStep pred mk) (some m) = some m' := by
  induction els with
  | nil => intro m _ _; exact ⟨m, rfl⟩
  | cons e es ih =>
    intro m hmk hm
    rw [List.foldl_cons]
    cases hp : pred e with
    | false =>
      have hstep : classStep pred mk (some m) e = some m := by
        simp [classStep, hp]
      rw [hstep]
      exact ih m (fun e' he' n => hmk e' (List.mem_cons_of_mem _ he') n)
        fun e' he' => hm e' (List.mem_cons_of_mem _ he')
    | true =>
      have hok := hm e (List.mem_cons_self _ _) hp
      rcases Option.isSome_iff_exists.mp
        (hmk e (List.mem_cons_self _ _) (m.getD e.Page.toNat []).length hp) with ⟨x, hx⟩
      have hstep : classStep pred mk (some m) e =
          some (m.set e.Page.toNat (m.getD e.Page.toNat [] ++ [x])) := by
        simp only [classStep, Option.some_bind, hp, if_true]
        rw [if_pos hok, hx, Option.map_some']
      rw [hstep]
      exact ih _ (fun e' he' n => hmk e' (List.mem_cons_of_mem _ he') n)
        fun e' he' => by
          simpa using hm e' (List.mem_cons_of_mem _ he')

theorem textFold_bad (els : List Element) :
    ∀ m : List String,
      (∃ e ∈ els, isParagraphEl e = true ∧ ¬(0 ≤ e.Page ∧ e.Page.toNat < m.length)) →
      els.foldl textStep (some m) = none := by
  induction els with
  | nil => intro m h; rcases h with ⟨e, he, _⟩; cases he
  | cons e es ih =>
    intro m h
    rw [List.foldl_cons]
    rcases h with ⟨e', he', hpar, hbad⟩
    rcases List.mem_cons.mp he' with rfl | hmem
    · have hstep : textStep (some m) e' = none := by
        simp only [textStep, Option.some_bind, hpar, if_true]
        rw [if_neg hbad]
      rw [hstep, foldl_textStep_none]
    · cases hs : textStep (some m) e with
      | none => rw [foldl_textStep_none]
      | some m₂ =>
        have hlen := textStep_some_length hs
        exact ih m₂ ⟨e', hmem, hpar, by rw [hlen]; exact hbad⟩

theorem classFold_bad {pred : Element → Bool} {mk : Element → Nat → Option α}
    (els : List Element) :
    ∀ m : List (List α),
      (∃ e ∈ els, pred e = true ∧ ¬(0 ≤ e.Page ∧ e.Page.toNat < m.length)) →
      els.foldl (classStep pred mk) (some m) = none := by
  induction els with
  | nil => intro m h; rcases h with ⟨e, he, _⟩; cases he
  | cons e es ih =>
    intro m h
    rw [List.foldl_cons]
    rcases h with ⟨e', he', hpar, hbad⟩
    rcases List.mem_cons.mp he' with rfl | hmem
    · have hstep : classStep pred mk (some m) e' = none := by
        simp only [classStep, Option.some_bind, hpar, if_true]
        rw [if_neg hbad]
      rw [hstep, foldl_classStep_none]
    · cases hs : classStep pred mk (some m) e with
      | none => rw [foldl_classStep_none]
      | some m₂ =>
        have hlen := classStep_some_length hs
        exact ih m₂ ⟨e', hmem, hpar, by rw [hlen]; exact hbad⟩

theorem getD_set_self_of_lt {α : Type _} {m : List α} {j : Nat} (h : j < m.length)
    (v d : α) : (m.set j v).getD j d = v := by
  simp [List.getD_eq_getElem?_getD, List.getElem?_set_self h]

theorem getD_set_ne_idx {α : Type _} {m : List α} {j i : Nat} (h : j ≠ i)
    (v d : α) : (m.set j v).getD i d = m.getD i d := by
  simp [List.getD_eq_getElem?_getD, List.getElem?_set_ne h]

theorem page_toNat_ne {e : Element} {i : Nat} (h0 : 0 ≤ e.Page)
    (hne : e.Page ≠ (i : Int)) : e.Page.toNat ≠ i := by
  intro hti
  apply hne
  rw [← Int.toNat_of_nonneg h0, hti]

theorem textFold_untouched (els : List Element) :
    ∀ m m' : List String, els.foldl textStep (some m) = some m' →
      ∀ i : Nat, (∀ e ∈ els, isParagraphEl e = true → e.Page ≠ (i : Int)) →
        m'.getD i "" = m.getD i "" := by
  induction els with
  | nil => intro m m' h i _; cases h; rfl
  | cons e es ih =>
    intro m m' h i hne
    rw [List.foldl_cons] at h
    cases hs : textStep (some m) e with
    | none => rw [hs, foldl_textStep_none] at h; cases h
    | some m₂ =>
      rw [hs] at h
      rw [ih m₂ m' h i fun e' he' => hne e' (List.mem_cons_of_mem _ he')]
      revert hs
      simp only [textStep, Option.some_bind]
      cases hp : isParagraphEl e with
      | false => intro hs; cases hs; rfl
      | true =>
        rw [if_pos rfl]
        split
        · rename_i hok
          intro hs
          cases hs
          exact getD_set_ne_idx
            (page_toNat_ne hok.1 (hne e (List.mem_cons_self _ _) hp)) _ _
        · intro hs; cases hs

theorem classFold_count {pred : Element → Bool} {mk : Element → Nat → Option α}
    (els : List Element) :
    ∀ m m' : List (List α), els.foldl (classStep pred mk) (some m) = some m' →
      ∀ i : Nat,
        (m'.getD i []).length =
          (m.getD i []).length + els.countP fun e => pred e && e.Page == (i : Int) := by
  induction els with
  | nil => intro m m' h i; cases h; simp [List.countP_nil]
  | cons e es ih =>
    intro m m' h i
    rw [List.foldl_cons] at h
    cases hs : classStep pred mk (some m) e with
    | none => rw [hs, foldl_classStep_none] at h; cases h
    | some m₂ =>
      rw [hs] at h
      have h2 := ih m₂ m' h i
      rw [h2, List.countP_cons]
      have hstep : (m₂.getD i []).length =
          (m.getD i []).length +
            (if (pred e && e.Page == (i : Int)) = true then 1 else 0) := by
        revert hs
        simp only [classStep, Option.some_bind]
        cases hp : pred e with
        | false => intro hs; cases hs; simp
        | true =>
          rw [if_pos rfl]
          split
          · rename_i hok
            cases hx : mk e (m.getD e.Page.toNat []).length with
            | none => intro hs; cases hs
            | some x =>
              rw [Option.map_some']
              intro hs
              cases hs
              by_cases hpg : e.Page = (i : Int)
              · have hbeq : (e.Page == (i : Int)) = true := beq_iff_eq.mpr hpg
                have hti : e.Page.toNat = i := by rw [hpg]; exact Int.toNat_natCast i
                rw [hbeq, Bool.and_self, if_pos rfl, ← hti,
                  getD_set_self_of_lt hok.2]
                simp
              · have hbeq : (e.Page == (i : Int)) = false := by simp [hpg]
                rw [getD_set_ne_idx (page_toNat_ne hok.1 hpg), hbeq]
                simp
          · intro hs; cases hs
      omega

theorem classFold_mem {pred : Element → Bool} {mk : Element → Nat → Option α}
    (els : List Element) :
    ∀ m m' : List (List α), els.foldl (classStep pred mk) (some m) = some m' →
      ∀ (i : Nat) (x : α), x ∈ m'.getD i [] →
        x ∈ m.getD i [] ∨ ∃ e n, e ∈ els ∧ pred e = true ∧ mk e n = some x := by
  induction els with
  | nil => intro m m' h i x hx; cases h; exact Or.inl hx
  | cons e es ih =>
    intro m m' h i x hx
    rw [List.foldl_cons] at h
    cases hs : classStep pred mk (some m) e with
    | none => rw [hs, foldl_classStep_none] at h; cases h
    | some m₂ =>
      rw [hs] at h
      rcases ih m₂ m' h i x hx with hin | ⟨e', n, he', hp', hmk'⟩
      · revert hs
        simp only [classStep, Option.some_bind]
        cases hp : pred e with
        | false => intro hs; cases hs; exact Or.inl hin
        | true =>
          rw [if_pos rfl]
          split
          · rename_i hok
            cases hx2 : mk e (m.getD e.Page.toNat []).length with
            | none => intro hs; cases hs
            | some y =>
              rw [Option.map_some']
              intro hs
              cases hs
              by_cases hti : e.Page.toNat = i
              · subst hti
                rw [getD_set_self_of_lt hok.2] at hin
                rcases List.mem_append.mp hin with hl | hr
                · exact Or.inl hl
                · rw [List.mem_singleton] at hr
                  exact Or.inr ⟨e, (m.getD e.Page.toNat []).length,
                    List.mem_cons_self _ _, hp, by rw [hx2, hr]⟩
              · rw [getD_set_ne_idx hti] at hin
                exact Or.inl hin
          · intro hs; cases hs
      · exact Or.inr ⟨e', n, List.mem_cons_of_mem _ he', hp', hmk'⟩

theorem classFold_untouched {pred : Element → Bool} {mk : Element → Nat → Option α}
    (els : List Element) :
    ∀ m m' : List (List α), els.foldl (classStep pred mk) (some m) = some m' →
      ∀ i : Nat, (∀ e ∈ els, pred e = true → e.Page ≠ (i : Int)) →
        m'.getD i [] = m.getD i [] := by
  induction els with
  | nil => intro m m' h i _; cases h; rfl
  | cons e es ih =>
    intro m m' h i hne
    rw [List.foldl_cons] at h
    cases hs : classStep pred mk (some m) e with
    | none => rw [hs, foldl_classStep_none] at h; cases h
    | some m₂ =>
      rw [hs] at h
      rw [ih m₂ m' h i fun e' he' => hne e' (List.mem_cons_of_mem _ he')]
      revert hs
      simp only [classStep, Option.some_bind]
      cases hp : pred e with
      | false => intro hs; cases hs; rfl
      | true =>
        rw [if_pos rfl]
        split
        · rename_i hok
          cases hx : mk e (m.getD e.Page.toNat []).length with
          | none => intro hs; cases hs
          | some x =>
            rw [Option.map_some']
            intro hs
            cases hs
            exact getD_set_ne_idx
              (page_toNat_ne hok.1 (hne e (List.mem_cons_self _ _) hp)) _ _
        · intro hs; cases hs

theorem restructure_inv {els : List Element} {P : Int} {f v lg ts : String}
    {doc : Document} (h : restructureOutput els P f v lg ts = some doc) :
    ∃ txts tbls imgs,
      textByPage els P = some txts ∧ tablesByPage els P = some tbls ∧
      imagesByPage els P = some imgs ∧
      doc = { document_id := pathStem f
              metadata := ⟨f, P, v, lg, ts⟩
              pages := (List.range P.toNat).map fun i =>
                ⟨Int.ofNat i + 1, txts.getD i "", tbls.getD i [], imgs.getD i []⟩ } := by
  unfold restructureOutput at h
  cases ht : textByPage els P with
  | none => rw [ht] at h; cases h
  | some txts =>
    rw [ht] at h
    cases htb : tablesByPage els P with
    | none => rw [htb] at h; cases h
    | some tbls =>
      rw [htb] at h
      cases him : imagesByPage els P with
      | none => rw [him] at h; cases h
      | some imgs =>
        rw [him] at h
        simp only [Option.some_bind, Option.map_some'] at h
        exact ⟨txts, tbls, imgs, rfl, rfl, rfl, (Option.some_inj.mp h).symm⟩

theorem textByPage_length {els : List Element} {P : Int} {txts : List String}
    (h : textByPage els P = some txts) : txts.length = P.toNat := by
  unfold textByPage at h
  cases hf : els.foldl textStep (some (List.replicate P.toNat "")) with
  | none => rw [hf] at h; cases h
  | some m' =>
    rw [hf] at h
    cases h
    rw [List.length_map, textFold_length els _ _ hf, List.length_replicate]

theorem tablesByPage_length {els : List Element} {P : Int} {tbls : List (List Table)}
    (h : tablesByPage els P = some tbls) : tbls.length = P.toNat := by
  unfold tablesByPage classFold at h
  rw [classFold_length els _ _ h, List.length_replicate]

theorem imagesByPage_length {els : List Element} {P : Int} {imgs : List (List Image)}
    (h : imagesByPage els P = some imgs) : imgs.length = P.toNat := by
  unfold imagesByPage classFold at h
  rw [classFold_length els _ _ h, List.length_replicate]

theorem restructure_pages_length {els : List Element} {P : Int} {f v lg ts : String}
    {doc : Document} (h : restructureOutput els P f v lg ts = some doc) :
    doc.pages.length = P.toNat := by
  rcases restructure_inv h with ⟨txts, tbls, imgs, _, _, _, rfl⟩
  simp

theorem getD_replicate_self {α : Type _} {n i : Nat} (d : α) :
    (List.replicate n d).getD i d = d := by
  rw [List.getD_eq_getElem?_getD]
  exact List.getElem?_getD_replicate_default_eq d n i

theorem textByPage_untouched {els : List Element} {P : Int} {txts : List String}
    (h : textByPage els P = some txts) (i : Nat)
    (hno : ∀ e ∈ els, isParagraphEl e = true → e.Page ≠ (i : Int)) :
    txts.getD i "" = "" := by
  unfold textByPage at h
  cases hf : els.foldl textStep (some (List.replicate P.toNat "")) with
  | none => rw [hf] at h; cases h
  | some m' =>
    rw [hf] at h
    cases h
    have hu := textFold_untouched els _ _ hf i hno
    rw [getD_replicate_self] at hu
    by_cases hi : i < m'.length
    · rw [List.getD_eq_getElem?_getD, List.getElem?_map,
        List.getElem?_eq_getElem hi]
      simp only [Option.map_some', Option.getD_some]
      rw [List.getD_eq_getElem?_getD, List.getElem?_eq_getElem hi,
        Option.getD_some] at hu
      rw [hu]
      rfl
    · rw [List.getD_eq_getElem?_getD, List.getElem?_map,
        List.getElem?_eq_none (by simpa using Nat.le_of_not_lt hi)]
      rfl

theorem classByPage_untouched {pred : Element → Bool} {mk : Element → Nat → Option α}
    {els : List Element} {P : Int} {buckets : List (List α)}
    (h : classFold pred mk els P = some buckets) (i : Nat)
    (hno : ∀ e ∈ els, pred e = true → e.Page ≠ (i : Int)) :
    buckets.getD i [] = [] := by
  unfold classFold at h
  have hu := classFold_untouched els _ _ h i hno
  rw [getD_replicate_self] at hu
  exact hu

theorem restructure_none_of_text {els : List Element} {P : Int} {f v lg ts : String}
    (ht : textByPage els P = none) : restructureOutput els P f v lg ts = none := by
  unfold restructureOutput
  rw [ht]
  rfl

theorem restructure_none_of_tables {els : List Element} {P : Int} {f v lg ts : String}
    {txts : List String} (ht : textByPage els P = some txts)
    (htb : tablesByPage els P = none) : restructureOutput els P f v lg ts = none := by
  unfold restructureOutput
  rw [ht, htb]
  rfl

theorem restructure_none_of_images {els : List Element} {P : Int} {f v lg ts : String}
    {txts : List String} {tbls : List (List Table)}
    (ht : textByPage els P = some txts) (htb : tablesByPage els P = some tbls)
    (him : imagesByPage els P = none) : restructureOutput els P f v lg ts = none := by
  unfold restructureOutput
  rw [ht, htb, him]
  rfl

/-- Claim C10: for any element list containing a paragraph element (path
prefixed by `//Document/P`, carrying text), or a figure or table-root
element, whose page index is `≥ page_count`, the assembly operation
(`_restructure_output`) fails with an uncaught `KeyError` (modelled as
`none`) rather than ignoring or clamping the element: assembly is total only
when every classified element's page index lies in `[0, page_count)`. -/
theorem c10_out_of_range_page_fails (els : List Element) (P : Int)
    (f v lg ts : String) (e : Element) (he : e ∈ els)
    (hclass : isParagraphEl e = true ∨ isFigureEl e = true ∨ isTableEl e = true)
    (hP : 0 ≤ P) (hpage : P ≤ e.Page) :
    restructureOutput els P f v lg ts = none := by
  have hbad : ∀ L : Nat, L = P.toNat → ¬(0 ≤ e.Page ∧ e.Page.toNat < L) := by
    rintro L rfl ⟨_, hlt⟩
    have := Int.toNat_le_toNat hpage
    omega
  rcases hclass with hpar | hfig | htab
  · apply restructure_none_of_text
    unfold textByPage
    rw [textFold_bad els _ ⟨e, he, hpar, by
      rw [List.length_replicate]; exact hbad _ rfl⟩]
    rfl
  · cases ht : textByPage els P with
    | none => exact restructure_none_of_text ht
    | some txts =>
      cases htb : tablesByPage els P with
      | none => exact restructure_none_of_tables ht htb
      | some tbls =>
        apply restructure_none_of_images ht htb
        unfold imagesByPage classFold
        exact classFold_bad els _ ⟨e, he, hfig, by
          rw [List.length_replicate]; exact hbad _ rfl⟩
  · cases ht : textByPage els P with
    | none => exact restructure_none_of_text ht
    | some txts =>
      apply restructure_none_of_tables ht
      unfold tablesByPage classFold
      exact classFold_bad els _ ⟨e, he, htab, by
        rw [List.length_replicate]; exact hbad _ rfl⟩

/-- Witness for C10: a single paragraph element on page 5 with page count 1
makes assembly fail. -/
theorem c10_out_of_range_page_fails_witness :
    restructureOutput [{ Path := "//Document/P", Page := 5, Text := some "x" }]
      1 "a.pdf" "" "" "" = none :=
  c10_out_of_range_page_fails _ 1 "a.pdf" "" "" ""
    { Path := "//Document/P", Page := 5, Text := some "x" }
    (List.mem_cons_self _ _) (Or.inl (by decide)) (by decide) (by decide)

theorem pySetItem_nonneg (row : List String) (i : Int) (s : String) (h : 0 ≤ i) :
    ∃ row', pySetItem row i s = some row' ∧ row'.length = row.length ∧
      ∀ j : Nat, row'.getD j "" = row.getD j "" ∨
        (j = i.toNat ∧ j < row.length ∧ row'.getD j "" = s) := by
  unfold pySetItem
  by_cases hlt : i < (row.length : Int)
  · rw [if_pos hlt, if_pos h]
    refine ⟨row.set i.toNat s, rfl, by simp, fun j => ?_⟩
    by_cases hj : j = i.toNat
    · subst hj
      have hjl : i.toNat < row.length := by omega
      exact Or.inr ⟨rfl, hjl, getD_set_self_of_lt hjl _ _⟩
    · exact Or.inl (getD_set_ne_idx (fun hh => hj hh.symm) _ _)
  · rw [if_neg hlt]
    exact ⟨row, rfl, rfl, fun j => Or.inl rfl⟩

theorem gridStep_some_of_nonneg (W : Nat) (st : List (List String) × List String × Int)
    (c : Int × Int × String) (h : 0 ≤ c.2.1) :
    (gridStep W st c).isSome = true := by
  unfold gridStep
  rcases pySetItem_nonneg (if c.1 ≠ st.2.2 then List.replicate W "" else st.2.1)
    c.2.1 c.2.2 h with ⟨row', hrow', _, _⟩
  rw [hrow']
  rfl

theorem gridRun_total (W : Nat) (items : List (Int × Int × String))
    (h : ∀ it ∈ items, 0 ≤ it.2.1) :
    ∀ st, (gridRun W items st).isSome = true := by
  induction items with
  | nil => intro st; rfl
  | cons it its ih =>
    intro st
    unfold gridRun
    rw [List.foldl_cons]
    cases hs : gridStep W st it with
    | none =>
      have hcontra := gridStep_some_of_nonneg W st it (h it (List.mem_cons_self _ _))
      rw [hs] at hcontra
      simp at hcontra
    | some st₂ =>
      rw [Option.some_bind, hs]
      exact ih (fun it' hit' => h it' (List.mem_cons_of_mem _ hit')) st₂

theorem extractTableData_some (t : Element) (all : List Element)
    (h : ∀ c ∈ cellsOf t all, 0 ≤ colIndexOf c) :
    (extractTableData t all).isSome = true := by
  unfold extractTableData
  cases hc : cellsOf t all with
  | nil => rfl
  | cons c0 rest =>
    have htot := gridRun_total (pyMaxList ((c0 :: rest).map colIndexOf) + 1).toNat
      ((List.insertionSort cellLE (c0 :: rest)).map fun c =>
        (rowIndexOf c, colIndexOf c, cellTextOf c.Path all))
      (by
        intro it hit
        rcases List.mem_map.mp hit with ⟨c, hcmem, rfl⟩
        have hmem : c ∈ (c0 :: rest) := (List.perm_insertionSort cellLE _).mem_iff.mp hcmem
        exact h c (by rw [hc]; exact hmem))
      ([], [], -1)
    simpa using htot

theorem restructure_some (els : List Element) (P : Int) (f v lg ts : String)
    (hpage : ∀ e ∈ els,
      (isParagraphEl e = true ∨ isFigureEl e = true ∨ isTableEl e = true) →
        0 ≤ e.Page ∧ e.Page.toNat < P.toNat)
    (htab : ∀ e ∈ els, isTableEl e = true → ∀ n, (mkTableInfo els e n).isSome = true) :
    ∃ doc, restructureOutput els P f v lg ts = some doc := by
  rcases textFold_some els (List.replicate P.toNat "") (fun e he hp => by
      rw [List.length_replicate]
      exact hpage e he (Or.inl hp)) with ⟨mt, hmt⟩
  have ht : textByPage els P = some (mt.map pyStrip) := by
    unfold textByPage
    rw [hmt]
    rfl
  rcases classFold_some els (List.replicate P.toNat [])
      (fun e he n hp => htab e he hp n)
      (fun e he hp => by
        rw [List.length_replicate]
        exact hpage e he (Or.inr (Or.inr hp))) with ⟨mtb, hmtb⟩
  have htb : tablesByPage els P = some mtb := hmtb
  rcases @classFold_some Image isFigureEl (mkImageInfo els) els
      (List.replicate P.toNat [])
      (fun e he n hp => rfl)
      (fun e he hp => by
        rw [List.length_replicate]
        exact hpage e he (Or.inr (Or.inl hp))) with ⟨mim, hmim⟩
  have him : imagesByPage els P = some mim := hmim
  refine ⟨{ document_id := pathStem f
            metadata := ⟨f, P, v, lg, ts⟩
            pages := (List.range P.toNat).map fun i =>
              ⟨Int.ofNat i + 1, (mt.map pyStrip).getD i "", mtb.getD i [],
                mim.getD i []⟩ }, ?_⟩
  unfold restructureOutput
  rw [ht, htb, him]
  rfl

theorem mkTableInfo_some_of_cols (els : List Element) (e : Element)
    (hcol : ∀ c ∈ cellsOf e els, 0 ≤ colIndexOf c) (n : Nat) :
    (mkTableInfo els e n).isSome = true := by
  unfold mkTableInfo
  have := extractTableData_some e els hcol
  cases hx : extractTableData e els with
  | none => rw [hx] at this; cases this
  | some d => rfl

/-- Claim C6 (amended): for every page count `P ≥ 0` and element list whose
elements all have page indices in `[0, P)` and non-negative `ColIndex`
attributes, assembly succeeds, the `pages` array has length exactly `P`, and
every page index with no elements yields a page with empty text, an empty
table list and an empty image list.  (The `ColIndex` hypothesis is forced by
the counterexample below: the original claim, quantified over all element
lists, fails because `current_row[col_idx] = ...` in `_extract_table_data`
raises `IndexError` for a sufficiently negative `ColIndex`.) -/
theorem c6_pages_length_and_empty_pages (els : List Element) (P : Int)
    (f v lg ts : String) (hP : 0 ≤ P)
    (hpage : ∀ e ∈ els, 0 ≤ e.Page ∧ e.Page < P)
    (hcol : ∀ e ∈ els, 0 ≤ colIndexOf e) :
    ∃ doc, restructureOutput els P f v lg ts = some doc ∧
      doc.pages.length = P.toNat ∧
      ∀ i : Nat, i < P.toNat → (∀ e ∈ els, e.Page ≠ (i : Int)) →
        doc.pages[i]? = some ⟨Int.ofNat i + 1, "", [], []⟩ := by
  obtain ⟨doc, hdoc⟩ := restructure_some els P f v lg ts
    (fun e he _ => by
      have := hpage e he
      constructor
      · exact this.1
      · omega)
    (fun e he _ => mkTableInfo_some_of_cols els e
      (fun c hc => hcol c (List.mem_filter.mp hc).1))
  refine ⟨doc, hdoc, restructure_pages_length hdoc, ?_⟩
  intro i hi hno
  rcases restructure_inv hdoc with ⟨txts, tbls, imgs, ht, htb, him, rfl⟩
  simp only
  rw [List.getElem?_map, List.getElem?_range hi]
  simp only [Option.map_some']
  rw [textByPage_untouched ht i fun e he _ => hno e he,
    classByPage_untouched htb i fun e he _ => hno e he,
    classByPage_untouched him i fun e he _ => hno e he]

/-- Counterexample to C6 as stated: a single element with page index 0 (in
`[0, 1)`) but `ColIndex = -5` makes the assembly raise `IndexError`
(`current_row[-5]` on an empty row), so no `pages` array of length `P` is
produced. -/
theorem c6_counterexample :
    (∀ e ∈ [({ Path := "//Document/Table/TR/TD",
               attributes := { ColIndex := -5 } } : Element)],
      0 ≤ e.Page ∧ e.Page < 1) ∧
    restructureOutput
      [{ Path := "//Document/Table/TR/TD", attributes := { ColIndex := -5 } }]
      1 "a.pdf" "" "" "" = none :=
  ⟨by decide, rfl⟩

/-- Witness for C6 (amended): on one paragraph element on page 0 of a
2-page document, assembly succeeds, yields 2 pages, and page 1 (no
elements) is empty. -/
theorem c6_pages_length_and_empty_pages_witness :
    ∃ doc, restructureOutput [{ Path := "//Document/P", Text := some "hi" }]
        2 "a.pdf" "" "" "" = some doc ∧
      doc.pages.length = (2 : Int).toNat ∧
      ∀ i : Nat, i < (2 : Int).toNat →
        (∀ e ∈ [({ Path := "//Document/P", Text := some "hi" } : Element)],
          e.Page ≠ (i : Int)) →
        doc.pages[i]? = some ⟨Int.ofNat i + 1, "", [], []⟩ :=
  c6_pages_length_and_empty_pages _ 2 "a.pdf" "" "" "" (by decide)
    (by decide) (by decide)

/-- Claim C7 (amended): the assembly operation does not raise any error when
`page_count` is negative — for a negative page count and an element list
with no classified (paragraph/figure/table) elements it returns a document
whose `pages` array is empty, rather than failing with an `InputError` —
and it never fails merely because a page has no content: with all pages in
range and non-negative `ColIndex` attributes it succeeds even when some
pages have no elements.  (The original claim, that a negative `page_count`
makes assembly fail with an `InputError` for every element list, is refuted
by the counterexample below; the code has no such guard and `range(n)` is
simply empty for `n < 0`.) -/
theorem c7_negative_page_count_no_error (f v lg ts : String) :
    (∀ P : Int, P < 0 → ∀ els : List Element,
      (∀ e ∈ els,
        isParagraphEl e = false ∧ isFigureEl e = false ∧ isTableEl e = false) →
      ∃ doc, restructureOutput els P f v lg ts = some doc ∧ doc.pages = []) ∧
    (∀ P : Int, 0 ≤ P → ∀ els : List Element,
      (∀ e ∈ els, 0 ≤ e.Page ∧ e.Page < P) →
      (∀ e ∈ els, 0 ≤ colIndexOf e) →
      (restructureOutput els P f v lg ts).isSome = true) := by
  constructor
  · intro P hP els hels
    obtain ⟨doc, hdoc⟩ := restructure_some els P f v lg ts
      (fun e he hcl => by
        rcases hcl with hc | hc | hc
        · rw [(hels e he).1] at hc; cases hc
        · rw [(hels e he).2.1] at hc; cases hc
        · rw [(hels e he).2.2] at hc; cases hc)
      (fun e he hc => by rw [(hels e he).2.2] at hc; cases hc)
    refine ⟨doc, hdoc, ?_⟩
    rcases restructure_inv hdoc with ⟨txts, tbls, imgs, _, _, _, rfl⟩
    simp [Int.toNat_of_nonpos (le_of_lt hP)]
  · intro P hP els hpage hcol
    obtain ⟨doc, hdoc⟩ := restructure_some els P f v lg ts
      (fun e he _ => by
        have := hpage e he
        exact ⟨this.1, by omega⟩)
      (fun e he _ => mkTableInfo_some_of_cols els e
        (fun c hc => hcol c (List.mem_filter.mp hc).1))
    rw [hdoc]
    rfl

/-- Counterexample to C7 as stated: with `page_count = -1` and an empty
element list, the assembly operation succeeds (it raises nothing at all, let
alone an `InputError`). -/
theorem c7_counterexample :
    ((-1 : Int) < 0) ∧
    (restructureOutput [] (-1) "a.pdf" "" "" "").isSome = true :=
  ⟨by decide, rfl⟩

/-- Witness for C7 (amended), instantiating both conjuncts at concrete
inputs. -/
theorem c7_negative_page_count_no_error_witness :
    (∃ doc, restructureOutput [] (-1) "a.pdf" "" "" "" = some doc ∧
      doc.pages = []) ∧
    (restructureOutput [] 0 "a.pdf" "" "" "").isSome = true :=
  ⟨(c7_negative_page_count_no_error "a.pdf" "" "" "").1 (-1) (by decide) []
      (by intro e he; cases he),
   (c7_negative_page_count_no_error "a.pdf" "" "" "").2 0 (by decide) []
      (by intro e he; cases he) (by intro e he; cases he)⟩

/-- Claim C2 (amended): the assembler treats an element as a table root
exactly when its path starts with `//Document/Table` — regardless of whether
the path contains a `TR`/`TD` row/cell segment.  Whenever assembly succeeds,
each page's table list has exactly one entry per element whose path has the
`//Document/Table` prefix and whose page index is that page; in particular a
cell element under a table is itself assembled as an additional table root
(see the counterexample to the original claim). -/
theorem c2_table_root_is_prefix_test (els : List Element) (P : Int)
    (f v lg ts : String) (doc : Document)
    (h : restructureOutput els P f v lg ts = some doc) :
    ∀ i : Nat, i < doc.pages.length →
      ∃ pg, doc.pages[i]? = some pg ∧
        pg.tables.length =
          els.countP fun e => isTableEl e && e.Page == (i : Int) := by
  intro i hi
  rcases restructure_inv h with ⟨txts, tbls, imgs, ht, htb, him, rfl⟩
  simp only [List.length_map, List.length_range] at hi
  refine ⟨⟨Int.ofNat i + 1, txts.getD i "", tbls.getD i [], imgs.getD i []⟩, ?_, ?_⟩
  · simp only
    rw [List.getElem?_map, List.getElem?_range hi, Option.map_some']
  · simp only
    have hcnt := classFold_count els _ _ htb i
    rw [getD_replicate_self] at hcnt
    simpa using hcnt

/-- Counterexample to C2 as stated: an element whose path contains `TR` and
`TD` segments under the document-table prefix is nevertheless assembled as a
table root (here it is the only element, and one table is produced). -/
theorem c2_counterexample :
    strContainsB "//Document/Table[1]/TR[2]/TD[1]" "TR" = true ∧
    strContainsB "//Document/Table[1]/TR[2]/TD[1]" "TD" = true ∧
    (restructureOutput [{ Path := "//Document/Table[1]/TR[2]/TD[1]" }]
        1 "a.pdf" "" "" "").map (fun d => d.pages.map fun p => p.tables.length) =
      some [1] :=
  ⟨rfl, rfl, rfl⟩

/-- Witness for C2 (amended) at a concrete input: one table-root element and
one unrelated paragraph on page 0. -/
theorem c2_table_root_is_prefix_test_witness :
    ∃ doc, restructureOutput
        [{ Path := "//Document/Table" }, { Path := "//Document/P", Text := some "x" }]
        1 "a.pdf" "" "" "" = some doc ∧
      ∃ pg, doc.pages[0]? = some pg ∧
        pg.tables.length =
          List.countP (fun e => isTableEl e && e.Page == ((0 : Nat) : Int))
            [{ Path := "//Document/Table" }, { Path := "//Document/P", Text := some "x" }] := by
  cases hdoc : restructureOutput
      [{ Path := "//Document/Table" }, { Path := "//Document/P", Text := some "x" }]
      1 "a.pdf" "" "" "" with
  | none => exact absurd hdoc (by decide)
  | some doc =>
    exact ⟨doc, rfl,
      c2_table_root_is_prefix_test _ 1 "a.pdf" "" "" "" doc hdoc 0
        (by rw [restructure_pages_length hdoc]; decide)⟩

/-! ### Caption-matcher lemmas (claim C5) -/

theorem captionCandidate_eq (img e : Element) :
    captionCandidate img e =
      if captionCandidateCond img e then some (e.Text.getD "", capGap img e)
      else none := by
  unfold captionCandidate captionCandidateCond capGap
  by_cases h1 : strStartsWithB e.Path "//Document/P" = true
  · by_cases h2 : e.Text.isSome = true
    · rw [if_pos (by rw [h1, h2]; rfl)]
      by_cases h3 : e.Bounds.length ≥ 4
      · rw [if_pos h3]
        by_cases h4 : e.Bounds.getD 1 0 < img.Bounds.getD 1 0 ∧
            (e.Bounds.getD 0 0 - img.Bounds.getD 0 0).natAbs < 50
        · rw [if_pos h4, if_pos ⟨h1, h2, h3, h4.1, h4.2⟩]
        · rw [if_neg h4, if_neg (by tauto)]
      · rw [if_neg h3, if_neg (by tauto)]
    · rw [if_neg (by rw [Bool.and_eq_true]; tauto), if_neg (by tauto)]
  · rw [if_neg (by rw [Bool.and_eq_true]; tauto), if_neg (by tauto)]

theorem foldlMin_le (cs : List (String × Int)) :
    ∀ b : String × Int,
      (cs.foldl (fun best x => if x.2 < best.2 then x else best) b).2 ≤ b.2 := by
  induction cs with
  | nil => intro b; exact le_refl _
  | cons x cs ih =>
    intro b
    rw [List.foldl_cons]
    refine le_trans (ih _) ?_
    by_cases hx : x.2 < b.2
    · rw [if_pos hx]; exact le_of_lt hx
    · rw [if_neg hx]

theorem foldlMin_le_mem (cs : List (String × Int)) :
    ∀ b : String × Int, ∀ x ∈ cs,
      (cs.foldl (fun best y => if y.2 < best.2 then y else best) b).2 ≤ x.2 := by
  induction cs with
  | nil => intro b x hx; cases hx
  | cons y cs ih =>
    intro b x hx
    rw [List.foldl_cons]
    rcases List.mem_cons.mp hx with rfl | hmem
    · refine le_trans (foldlMin_le _ _) ?_
      by_cases hy : x.2 < b.2
      · rw [if_pos hy]
      · rw [if_neg hy]; omega
    · exact ih _ x hmem

theorem foldlMin_split (cs : List (String × Int)) :
    ∀ b : String × Int,
      ∃ pre post,
        b :: cs = pre ++ (cs.foldl (fun best y => if y.2 < best.2 then y else best) b) :: post ∧
        ∀ y ∈ pre, (cs.foldl (fun best y => if y.2 < best.2 then y else best) b).2 < y.2 := by
  induction cs with
  | nil => intro b; exact ⟨[], [], rfl, by intro y hy; cases hy⟩
  | cons x cs ih =>
    intro b
    rw [List.foldl_cons]
    by_cases hx : x.2 < b.2
    · rw [if_pos hx]
      rcases ih x with ⟨pre', post', heq, hlt⟩
      refine ⟨b :: pre', post', by rw [List.cons_append, ← heq], ?_⟩
      intro y hy
      rcases List.mem_cons.mp hy with rfl | hmem
      · exact lt_of_le_of_lt (foldlMin_le _ _) hx
      · exact hlt y hmem
    · rw [if_neg hx]
      rcases ih b with ⟨pre', post', heq, hlt⟩
      cases pre' with
      | nil =>
        simp only [List.nil_append] at heq
        refine ⟨[], x :: cs, ?_, by intro y hy; cases hy⟩
        rw [List.nil_append,
          ((List.cons_eq_cons.mp heq).1).symm]
      | cons p pre'' =>
        simp only [List.cons_append] at heq
        have hb : b = p := (List.cons_eq_cons.mp heq).1
        have hcs : cs = pre'' ++ _ :: post' := (List.cons_eq_cons.mp heq).2
        refine ⟨b :: x :: pre'', post', ?_, ?_⟩
        · rw [List.cons_append, List.cons_append, ← hcs]
        · intro y hy
          have hrb : (cs.foldl (fun best y => if y.2 < best.2 then y else best) b).2 < b.2 := by
            have hlp := hlt p (List.mem_cons_self _ _)
            have hbp : b.2 = p.2 := by rw [hb]
            omega
          rcases List.mem_cons.mp hy with rfl | hy2
          · exact hrb
          · rcases List.mem_cons.mp hy2 with rfl | hy3
            · omega
            · exact hlt y (List.mem_cons_of_mem _ hy3)

theorem filterMap_split {α β : Type _} (f : α → Option β) (l : List α) :
    ∀ pre (x : β) post, l.filterMap f = pre ++ x :: post →
      ∃ l1 e l2, l = l1 ++ e :: l2 ∧ f e = some x ∧ l1.filterMap f = pre := by
  induction l with
  | nil =>
    intro pre x post h
    rw [List.filterMap_nil] at h
    exact absurd h.symm (List.append_ne_nil_of_right_ne_nil _ (by simp))
  | cons a l ih =>
    intro pre x post h
    rw [List.filterMap_cons] at h
    cases hfa : f a with
    | none =>
      rw [hfa] at h
      rcases ih pre x post h with ⟨l1, e, l2, rfl, hfe, hpre⟩
      exact ⟨a :: l1, e, l2, rfl, hfe, by rw [List.filterMap_cons, hfa]; exact hpre⟩
    | some b =>
      rw [hfa] at h
      cases pre with
      | nil =>
        simp only [List.nil_append] at h
        have hb : b = x := (List.cons_eq_cons.mp h).1
        exact ⟨[], a, l, rfl, by rw [hfa, hb], rfl⟩
      | cons p pre' =>
        simp only [List.cons_append] at h
        have hb : b = p := (List.cons_eq_cons.mp h).1
        have hl : l.filterMap f = pre' ++ x :: post := (List.cons_eq_cons.mp h).2
        rcases ih pre' x post hl with ⟨l1, e, l2, rfl, hfe, hpre⟩
        exact ⟨a :: l1, e, l2, rfl, hfe, by
          rw [List.filterMap_cons, hfa, hpre, hb]⟩

theorem extractImageCaption_of_bounds {img : Element} (els : List Element)
    (h : ¬ img.Bounds.length < 4) :
    extractImageCaption img els =
      match els.filterMap (captionCandidate img) with
      | [] => none
      | c :: cs =>
        if (cs.foldl (fun best x => if x.2 < best.2 then x else best) c).2 < 100 then
          some ((cs.foldl (fun best x => if x.2 < best.2 then x else best) c).1)
        else none := by
  unfold extractImageCaption
  rw [if_neg h]

/-- Claim C5: the caption matcher (`_extract_image_caption`) never selects a
paragraph that is not strictly below the image, or whose horizontal offset is
50 or more, or whose vertical gap `image_y0 - text_y0` is 100 or more; when it
returns a caption, the selected paragraph is a valid candidate with the
smallest vertical gap among all candidates, and it is the first such candidate
in input encounter order (every earlier candidate has a strictly larger gap);
when a valid candidate with gap under 100 exists, a caption is returned; and
when the image has fewer than 4 bound coordinates it returns no caption. -/
theorem c5_caption_matcher_selection (img : Element) (els : List Element) :
    (img.Bounds.length < 4 → extractImageCaption img els = none) ∧
    (∀ c, extractImageCaption img els = some c →
      ∃ l1 e l2, els = l1 ++ e :: l2 ∧
        captionCandidateCond img e ∧ capGap img e < 100 ∧ c = e.Text.getD "" ∧
        (∀ e2 ∈ els, captionCandidateCond img e2 → capGap img e ≤ capGap img e2) ∧
        (∀ e2 ∈ l1, captionCandidateCond img e2 → capGap img e < capGap img e2)) ∧
    (4 ≤ img.Bounds.length →
      ∀ e ∈ els, captionCandidateCond img e → capGap img e < 100 →
        (extractImageCaption img els).isSome = true) := by
  refine ⟨?_, ?_, ?_⟩
  · intro hlen
    unfold extractImageCaption
    rw [if_pos hlen]
  · intro c h
    by_cases hlen : img.Bounds.length < 4
    · unfold extractImageCaption at h
      rw [if_pos hlen] at h
      cases h
    · rw [extractImageCaption_of_bounds els hlen] at h
      cases hc : els.filterMap (captionCandidate img) with
      | nil => rw [hc] at h; cases h
      | cons c0 cs =>
        rw [hc] at h
        simp only at h
        by_cases h100 :
            (cs.foldl (fun best x => if x.2 < best.2 then x else best) c0).2 < 100
        · rw [if_pos h100] at h
          have hc' : c = (cs.foldl (fun best x => if x.2 < best.2 then x else best) c0).1 :=
            (Option.some_inj.mp h).symm
          rcases foldlMin_split cs c0 with ⟨pre, post, heq, hpre⟩
          have hsplit : els.filterMap (captionCandidate img) =
              pre ++ (cs.foldl (fun best x => if x.2 < best.2 then x else best) c0) :: post := by
            rw [hc, heq]
          rcases filterMap_split _ els pre _ post hsplit with ⟨l1, e, l2, rfl, hfe, hl1⟩
          rw [captionCandidate_eq] at hfe
          have hconde : captionCandidateCond img e := by
            by_contra hn
            rw [if_neg hn] at hfe
            cases hfe
          rw [if_pos hconde] at hfe
          have hpair := Option.some_inj.mp hfe
          have hfst : e.Text.getD "" =
              (cs.foldl (fun best x => if x.2 < best.2 then x else best) c0).1 :=
            congrArg Prod.fst hpair
          have hsnd : capGap img e =
              (cs.foldl (fun best x => if x.2 < best.2 then x else best) c0).2 :=
            congrArg Prod.snd hpair
          have hminall : ∀ x ∈ c0 :: cs,
              (cs.foldl (fun best x => if x.2 < best.2 then x else best) c0).2 ≤ x.2 := by
            intro x hx
            rcases List.mem_cons.mp hx with rfl | hx2
            · exact foldlMin_le _ _
            · exact foldlMin_le_mem _ _ x hx2
          refine ⟨l1, e, l2, rfl, hconde, by rw [hsnd]; exact h100,
            by rw [hc', hfst], ?_, ?_⟩
          · intro e2 he2 hcond2
            have hf2 : captionCandidate img e2 = some (e2.Text.getD "", capGap img e2) := by
              rw [captionCandidate_eq, if_pos hcond2]
            have hmem2 : (e2.Text.getD "", capGap img e2) ∈
                (l1 ++ e :: l2).filterMap (captionCandidate img) :=
              List.mem_filterMap.mpr ⟨e2, he2, hf2⟩
            rw [hc] at hmem2
            have := hminall _ hmem2
            rw [hsnd]
            exact this
          · intro e2 he2 hcond2
            have hf2 : captionCandidate img e2 = some (e2.Text.getD "", capGap img e2) := by
              rw [captionCandidate_eq, if_pos hcond2]
            have hmem2 : (e2.Text.getD "", capGap img e2) ∈ pre := by
              rw [← hl1]
              exact List.mem_filterMap.mpr ⟨e2, he2, hf2⟩
            have := hpre _ hmem2
            rw [hsnd]
            exact this
        · rw [if_neg h100] at h
          cases h
  · intro hlen e he hcond hgap
    have hnlt : ¬ img.Bounds.length < 4 := by omega
    rw [extractImageCaption_of_bounds els hnlt]
    have hf : captionCandidate img e = some (e.Text.getD "", capGap img e) := by
      rw [captionCandidate_eq, if_pos hcond]
    have hmem : (e.Text.getD "", capGap img e) ∈
        els.filterMap (captionCandidate img) :=
      List.mem_filterMap.mpr ⟨e, he, hf⟩
    cases hc : els.filterMap (captionCandidate img) with
    | nil => rw [hc] at hmem; cases hmem
    | cons c0 cs =>
      rw [hc] at hmem
      simp only
      have hminall : ∀ x ∈ c0 :: cs,
          (cs.foldl (fun best x => if x.2 < best.2 then x else best) c0).2 ≤ x.2 := by
        intro x hx
        rcases List.mem_cons.mp hx with rfl | hx2
        · exact foldlMin_le _ _
        · exact foldlMin_le_mem _ _ x hx2
      have h100 : (cs.foldl (fun best x => if x.2 < best.2 then x else best) c0).2 < 100 :=
        lt_of_le_of_lt (by simpa using hminall _ hmem) hgap
      rw [if_pos h100]
      rfl

/-- Witness for C5: the no-bounds conjunct and the existence conjunct, each at
a concrete input (an image with 3 bound coordinates returns no caption; the
spec's scenario C image/paragraph pair returns a caption). -/
theorem c5_caption_matcher_selection_witness :
    extractImageCaption { Bounds := [100, 500, 200] } [] = none ∧
    (extractImageCaption { Bounds := [100, 500, 200, 520] }
      [{ Path := "//Document/P", Text := some "Figure 1: demo",
         Bounds := [100, 450, 180, 460] }]).isSome = true :=
  ⟨(c5_caption_matcher_selection _ _).1 (by decide),
   (c5_caption_matcher_selection _ _).2.2 (by decide) _ (List.mem_cons_self _ _)
     (by decide) (by decide)⟩

/-! ### Content-quality lemmas (claim C8) -/

theorem exists_enum_iff {α : Type _} (l : List α) (q : α → Prop) :
    (∃ pr ∈ l.enum, q pr.2) ↔ ∃ p ∈ l, q p := by
  constructor
  · rintro ⟨pr, hpr, hq⟩
    exact ⟨pr.2, List.snd_mem_of_mem_enum hpr, hq⟩
  · rintro ⟨p, hp, hq⟩
    rw [← List.enum_map_snd l] at hp
    rcases List.mem_map.mp hp with ⟨pr, hpr, rfl⟩
    exact ⟨pr, hpr, hq⟩

theorem emptyPagesOf_ne_nil_iff (pages : List Page) :
    emptyPagesOf pages ≠ [] ↔
      ∃ p ∈ pages, p.text = "" ∧ p.tables = [] ∧ p.images = [] := by
  unfold emptyPagesOf
  rw [Ne, List.map_eq_nil_iff, List.filter_eq_nil_iff]
  push_neg
  constructor
  · rintro ⟨pr, hpr, hq⟩
    refine (exists_enum_iff pages _).mp ⟨pr, hpr, ?_⟩
    rcases of_decide_eq_true hq with ⟨h1, h2, h3⟩
    exact ⟨h1, List.isEmpty_iff.mp h2, List.isEmpty_iff.mp h3⟩
  · intro hx
    rcases (exists_enum_iff pages
        (fun p => p.text = "" ∧ p.tables = [] ∧ p.images = [])).mpr hx with
      ⟨pr, hpr, h1, h2, h3⟩
    exact ⟨pr, hpr, decide_eq_true ⟨h1, by simp [h2], by simp [h3]⟩⟩

theorem tableStats_bad_iff (pages : List Page) :
    (∃ x ∈ tableStatsOf pages, ¬ x.2 = true) ↔
      ∃ p ∈ pages, ∃ t ∈ p.tables, t.data ≠ [] ∧
        ∀ row ∈ t.data, ∀ cell ∈ row, pyStrip cell = "" := by
  unfold tableStatsOf
  constructor
  · rintro ⟨x, hx, hnx⟩
    rcases List.mem_flatMap.mp hx with ⟨pr, hpr, hxin⟩
    rcases List.mem_filterMap.mp hxin with ⟨t, ht, hsome⟩
    by_cases hd : t.data.isEmpty = true
    · rw [if_neg (by simp [hd])] at hsome
      cases hsome
    · rw [if_pos (by simp [hd])] at hsome
      cases hsome
      refine ⟨pr.2, List.snd_mem_of_mem_enum hpr, t, ht,
        fun hnil => hd (by simp [hnil]), ?_⟩
      intro row hrow cell hcell
      by_contra hcs
      apply hnx
      unfold tableHasData
      simp only [Bool.and_eq_true, List.any_eq_true]
      exact ⟨by simp [hd], row, hrow, cell, hcell, by simpa using hcs⟩
  · rintro ⟨p, hp, t, ht, hdata, hblank⟩
    rcases (exists_enum_iff pages (fun x => x = p)).mpr ⟨p, hp, rfl⟩ with ⟨pr, hpr, hpr2⟩
    refine ⟨(pr.1 + 1, tableHasData t.data), ?_, ?_⟩
    · refine List.mem_flatMap.mpr ⟨pr, hpr, ?_⟩
      refine List.mem_filterMap.mpr ⟨t, by rw [hpr2]; exact ht, ?_⟩
      rw [if_pos (by simp [hdata])]
    · show ¬ (tableHasData t.data) = true
      unfold tableHasData
      simp only [Bool.and_eq_true, List.any_eq_true, decide_eq_true_eq]
      rintro ⟨-, row, hrow, cell, hcell, hcs⟩
      exact hcs (hblank row hrow cell hcell)
  
theorem imageStats_bad_iff (pages : List Page) :
    (∃ x ∈ imageStatsOf pages, ¬ x.2.2 = true) ↔
      ∃ p ∈ pages, ∃ im ∈ p.images, (imageEffBounds im).length < 4 := by
  unfold imageStatsOf
  constructor
  · rintro ⟨x, hx, hnx⟩
    rcases List.mem_flatMap.mp hx with ⟨pr, hpr, hxin⟩
    rcases List.mem_map.mp hxin with ⟨im, him, rfl⟩
    refine ⟨pr.2, List.snd_mem_of_mem_enum hpr, im, him, ?_⟩
    simp only [decide_eq_true_eq] at hnx
    omega
  · rintro ⟨p, hp, im, him, hlen⟩
    rcases (exists_enum_iff pages (fun x => x = p)).mpr ⟨p, hp, rfl⟩ with ⟨pr, hpr, hpr2⟩
    refine ⟨_, List.mem_flatMap.mpr ⟨pr, hpr,
      List.mem_map.mpr ⟨im, by rw [hpr2]; exact him, rfl⟩⟩, ?_⟩
    simp only [decide_eq_true_eq]
    omega

theorem emptyPages_warning_ne (s t : String) (ht : t.data.head? ≠ some 'E') :
    ("Empty pages detected: " ++ s) ≠ t := by
  intro h
  apply ht
  rw [← h, String.data_append]
  rfl

/-- Claim C8 (amended): `verify_content_quality` reports
`content_quality = "warning"` iff at least one of its three triggers fires —
an empty page; a table whose `data` is non-empty but all of whose cells strip
to the empty string (a table whose data rows are absent is skipped by the
`if data:` guard and never triggers); or an image whose effective bounds
(`bounds` if non-empty, else `bbox`) have fewer than 4 coordinates — and
`"good"` otherwise; the `"Some tables have no data"` warning is emitted iff
the table trigger fires, and `"Some images missing bounds"` iff the image
trigger fires. -/
theorem c8_content_quality_triggers (doc : Document) :
    ((verifyContentQuality doc).content_quality = "warning" ↔
      ((∃ p ∈ doc.pages, p.text = "" ∧ p.tables = [] ∧ p.images = []) ∨
       (∃ p ∈ doc.pages, ∃ t ∈ p.tables, t.data ≠ [] ∧
         ∀ row ∈ t.data, ∀ cell ∈ row, pyStrip cell = "") ∨
       (∃ p ∈ doc.pages, ∃ im ∈ p.images, (imageEffBounds im).length < 4))) ∧
    ((verifyContentQuality doc).content_quality = "good" ↔
      ¬ ((∃ p ∈ doc.pages, p.text = "" ∧ p.tables = [] ∧ p.images = []) ∨
       (∃ p ∈ doc.pages, ∃ t ∈ p.tables, t.data ≠ [] ∧
         ∀ row ∈ t.data, ∀ cell ∈ row, pyStrip cell = "") ∨
       (∃ p ∈ doc.pages, ∃ im ∈ p.images, (imageEffBounds im).length < 4))) ∧
    ("Some tables have no data" ∈ (verifyContentQuality doc).warnings ↔
      (∃ p ∈ doc.pages, ∃ t ∈ p.tables, t.data ≠ [] ∧
        ∀ row ∈ t.data, ∀ cell ∈ row, pyStrip cell = "")) ∧
    ("Some images missing bounds" ∈ (verifyContentQuality doc).warnings ↔
      (∃ p ∈ doc.pages, ∃ im ∈ p.images, (imageEffBounds im).length < 4)) := by
  have hE : (¬ (emptyPagesOf doc.pages).isEmpty = true) ↔
      ∃ p ∈ doc.pages, p.text = "" ∧ p.tables = [] ∧ p.images = [] := by
    rw [List.isEmpty_iff]
    exact emptyPagesOf_ne_nil_iff doc.pages
  have hT : (((tableStatsOf doc.pages).filter fun t => t.2).length <
        (tableStatsOf doc.pages).length) ↔
      ∃ p ∈ doc.pages, ∃ t ∈ p.tables, t.data ≠ [] ∧
        ∀ row ∈ t.data, ∀ cell ∈ row, pyStrip cell = "" := by
    rw [List.length_filter_lt_length_iff_exists]
    exact tableStats_bad_iff doc.pages
  have hI : (((imageStatsOf doc.pages).filter fun i => i.2.2).length <
        (imageStatsOf doc.pages).length) ↔
      ∃ p ∈ doc.pages, ∃ im ∈ p.images, (imageEffBounds im).length < 4 := by
    rw [List.length_filter_lt_length_iff_exists]
    exact imageStats_bad_iff doc.pages
  have hCiff := or_congr hE (or_congr hT hI)
  have hw1 : ∀ x : String,
      x ∈ (if (emptyPagesOf doc.pages).isEmpty = true then ([] : List String)
        else ["Empty pages detected: " ++ toString (emptyPagesOf doc.pages)]) →
      ∃ s, x = "Empty pages detected: " ++ s := by
    intro x hx
    by_cases hEb : (emptyPagesOf doc.pages).isEmpty = true
    · rw [if_pos hEb] at hx
      cases hx
    · rw [if_neg hEb] at hx
      exact ⟨_, List.mem_singleton.mp hx⟩
  unfold verifyContentQuality
  simp only
  refine ⟨?_, ?_, ?_, ?_⟩
  · by_cases hc : (¬ (emptyPagesOf doc.pages).isEmpty = true ∨
        ((tableStatsOf doc.pages).filter fun t => t.2).length <
          (tableStatsOf doc.pages).length ∨
        ((imageStatsOf doc.pages).filter fun i => i.2.2).length <
          (imageStatsOf doc.pages).length)
    · rw [if_pos hc]
      exact iff_of_true rfl (hCiff.mp hc)
    · rw [if_neg hc]
      exact iff_of_false (by decide) fun hh => hc (hCiff.mpr hh)
  · by_cases hc : (¬ (emptyPagesOf doc.pages).isEmpty = true ∨
        ((tableStatsOf doc.pages).filter fun t => t.2).length <
          (tableStatsOf doc.pages).length ∨
        ((imageStatsOf doc.pages).filter fun i => i.2.2).length <
          (imageStatsOf doc.pages).length)
    · rw [if_pos hc]
      exact iff_of_false (by decide) (not_not_intro (hCiff.mp hc))
    · rw [if_neg hc]
      exact iff_of_true rfl fun hh => hc (hCiff.mpr hh)
  · simp only [List.mem_append]
    by_cases hTb : (((tableStatsOf doc.pages).filter fun t => t.2).length <
        (tableStatsOf doc.pages).length)
    · rw [if_pos hTb]
      exact iff_of_true (Or.inl (Or.inr (List.mem_singleton.mpr rfl))) (hT.mp hTb)
    · rw [if_neg hTb]
      refine iff_of_false ?_ fun hh => hTb (hT.mpr hh)
      rintro ((hm | hm) | hm)
      · rcases hw1 _ hm with ⟨s, hs⟩
        exact emptyPages_warning_ne s _ (by decide) hs.symm
      · cases hm
      · by_cases hIb : (((imageStatsOf doc.pages).filter fun i => i.2.2).length <
            (imageStatsOf doc.pages).length)
        · rw [if_pos hIb] at hm
          exact absurd (List.mem_singleton.mp hm) (by decide)
        · rw [if_neg hIb] at hm
          cases hm
  · simp only [List.mem_append]
    by_cases hIb : (((imageStatsOf doc.pages).filter fun i => i.2.2).length <
        (imageStatsOf doc.pages).length)
    · rw [if_pos hIb]
      exact iff_of_true (Or.inr (List.mem_singleton.mpr rfl)) (hI.mp hIb)
    · rw [if_neg hIb]
      refine iff_of_false ?_ fun hh => hIb (hI.mpr hh)
      rintro ((hm | hm) | hm)
      · rcases hw1 _ hm with ⟨s, hs⟩
        exact emptyPages_warning_ne s _ (by decide) hs.symm
      · by_cases hTb : (((tableStatsOf doc.pages).filter fun t => t.2).length <
            (tableStatsOf doc.pages).length)
        · rw [if_pos hTb] at hm
          exact absurd (List.mem_singleton.mp hm) (by decide)
        · rw [if_neg hTb] at hm
          cases hm
      · cases hm

/-- Counterexample to C8 as stated: a document whose only table has absent
data rows (`data == []`) gets quality `"good"` and no warnings, because the
`if data:` guard in `verify_content_quality` skips such tables before the
`tables_with_data < total_tables` comparison. -/
theorem c8_counterexample :
    (verifyContentQuality
      { document_id := "d"
        metadata := ⟨"s.pdf", 1, "", "", ""⟩
        pages := [{ page_number := 1, text := ""
                    tables := [{ table_id := "t1", data := [], bounds := []
                                 bbox := [], num_rows := 0, placement := "Unknown" }]
                    images := [] }] }).content_quality = "good" ∧
    (verifyContentQuality
      { document_id := "d"
        metadata := ⟨"s.pdf", 1, "", "", ""⟩
        pages := [{ page_number := 1, text := ""
                    tables := [{ table_id := "t1", data := [], bounds := []
                                 bbox := [], num_rows := 0, placement := "Unknown" }]
                    images := [] }] }).warnings = [] :=
  ⟨rfl, rfl⟩

/-! ### Comparison-engine lemmas (claim C9) -/

theorem tallyAdd_lookup_same (m : List (String × Nat)) (k : String) :
    tallyLookup (tallyAdd m k) k = some ((tallyLookup m k).getD 0 + 1) := by
  induction m with
  | nil =>
    unfold tallyLookup tallyAdd
    simp [List.find?_cons]
  | cons kv rest ih =>
    unfold tallyAdd
    by_cases hk : kv.1 = k
    · rw [if_pos hk]
      unfold tallyLookup
      rw [List.find?_cons_of_pos _ (by simpa using hk),
        List.find?_cons_of_pos _ (by simpa using hk)]
      rfl
    · rw [if_neg hk]
      unfold tallyLookup
      rw [List.find?_cons_of_neg _ (by simpa using hk),
        List.find?_cons_of_neg _ (by simpa using hk)]
      exact ih

theorem tallyAdd_lookup_other (m : List (String × Nat)) (k k' : String)
    (h : k' ≠ k) : tallyLookup (tallyAdd m k) k' = tallyLookup m k' := by
  induction m with
  | nil =>
    unfold tallyLookup tallyAdd
    rw [List.find?_cons_of_neg _ (by simpa using fun hh : k = k' => h hh.symm)]
  | cons kv rest ih =>
    unfold tallyAdd
    by_cases hk : kv.1 = k
    · rw [if_pos hk]
      have hne : ¬ kv.1 = k' := by
        intro hh
        rw [hh] at hk
        exact h hk
      unfold tallyLookup
      rw [List.find?_cons_of_neg _ (by simpa using hne),
        List.find?_cons_of_neg _ (by simpa using hne)]
    · rw [if_neg hk]
      by_cases hk' : kv.1 = k'
      · unfold tallyLookup
        rw [List.find?_cons_of_pos _ (by simpa using hk'),
          List.find?_cons_of_pos _ (by simpa using hk')]
      · unfold tallyLookup
        rw [List.find?_cons_of_neg _ (by simpa using hk'),
          List.find?_cons_of_neg _ (by simpa using hk')]
        exact ih

theorem elementTallyAux_lookup (els : List Element) :
    ∀ (m : List (String × Nat)) (k : String),
      tallyLookup (els.foldl (fun m e =>
          if strStartsWithB e.Path "//Document/" then tallyAdd m (lastSegment e.Path)
          else m) m) k =
        match tallyLookup m k with
        | some n => some (n + els.countP fun e =>
            strStartsWithB e.Path "//Document/" && lastSegment e.Path == k)
        | none =>
          if (els.countP fun e =>
              strStartsWithB e.Path "//Document/" && lastSegment e.Path == k) = 0 then
            none
          else
            some (els.countP fun e =>
              strStartsWithB e.Path "//Document/" && lastSegment e.Path == k) := by
  induction els with
  | nil =>
    intro m k
    rw [List.foldl_nil, List.countP_nil]
    cases h : tallyLookup m k with
    | none => simp
    | some n => simp
  | cons e es ih =>
    intro m k
    rw [List.foldl_cons, List.countP_cons]
    cases hs : strStartsWithB e.Path "//Document/" with
    | false =>
      rw [if_neg (by simp)]
      rw [ih m k]
      simp
    | true =>
      rw [if_pos rfl]
      by_cases hseg : lastSegment e.Path = k
      · rw [hseg, ih (tallyAdd m k) k, tallyAdd_lookup_same]
        have hone : (if (true && k == k) = true then 1 else 0) = 1 := by simp
        rw [hone]
        cases hm : tallyLookup m k with
        | none =>
          dsimp only [Option.getD_none]
          rw [if_neg (by omega)]
          congr 1
          omega
        | some n =>
          dsimp only [Option.getD_some]
          congr 1
          omega
      · rw [ih (tallyAdd m (lastSegment e.Path)) k,
          tallyAdd_lookup_other m _ k fun hh => hseg hh.symm]
        have hp : (true && lastSegment e.Path == k) = false := by
          simp [hseg]
        rw [hp]
        simp

theorem elementTally_lookup (els : List Element) (k : String) :
    tallyLookup (elementTally els) k =
      if (els.countP fun e =>
          strStartsWithB e.Path "//Document/" && lastSegment e.Path == k) = 0 then none
      else some (els.countP fun e =>
          strStartsWithB e.Path "//Document/" && lastSegment e.Path == k) := by
  have h := elementTallyAux_lookup els [] k
  unfold elementTally
  rw [h]
  rfl

theorem tallyAdd_keys (m : List (String × Nat)) (k : String) :
    (tallyAdd m k).map (·.1) =
      if k ∈ m.map (·.1) then m.map (·.1) else m.map (·.1) ++ [k] := by
  induction m with
  | nil => simp [tallyAdd]
  | cons kv rest ih =>
    unfold tallyAdd
    by_cases hk : kv.1 = k
    · rw [if_pos hk, if_pos (by simp [hk])]
      simp [hk]
    · rw [if_neg hk]
      by_cases hmem : k ∈ rest.map (·.1)
      · rw [if_pos (by simp [hmem])]
        simp only [List.map_cons]
        rw [ih, if_pos hmem]
      · rw [if_neg (by
          simp only [List.map_cons, List.mem_cons]
          push_neg
          exact ⟨fun hh => hk hh.symm, hmem⟩)]
        simp only [List.map_cons]
        rw [ih, if_neg hmem]
        rfl

theorem tallyAdd_keys_nodup (m : List (String × Nat)) (k : String)
    (hnd : (m.map (·.1)).Nodup) : ((tallyAdd m k).map (·.1)).Nodup := by
  rw [tallyAdd_keys]
  by_cases hmem : k ∈ m.map (·.1)
  · rw [if_pos hmem]
    exact hnd
  · rw [if_neg hmem]
    rw [List.nodup_append]
    exact ⟨hnd, List.nodup_singleton k, by
      intro x hx hx2
      rw [List.mem_singleton] at hx2
      exact hmem (hx2 ▸ hx)⟩

theorem elementTally_keys_nodup (els : List Element) :
    ((elementTally els).map (·.1)).Nodup := by
  unfold elementTally
  suffices h : ∀ m : List (String × Nat), (m.map (·.1)).Nodup →
      ((els.foldl (fun m e =>
        if strStartsWithB e.Path "//Document/" then tallyAdd m (lastSegment e.Path)
        else m) m).map (·.1)).Nodup by
    exact h [] (by simp)
  induction els with
  | nil => intro m hm; exact hm
  | cons e es ih =>
    intro m hm
    rw [List.foldl_cons]
    by_cases hs : strStartsWithB e.Path "//Document/" = true
    · rw [if_pos hs]
      exact ih _ (tallyAdd_keys_nodup m _ hm)
    · rw [if_neg hs]
      exact ih m hm

theorem lookup_of_mem_nodup (m : List (String × Nat))
    (hnd : (m.map (·.1)).Nodup) (kv : String × Nat) (hm : kv ∈ m) :
    tallyLookup m kv.1 = some kv.2 := by
  induction m with
  | nil => cases hm
  | cons hd rest ih =>
    rcases List.mem_cons.mp hm with rfl | hmem
    · unfold tallyLookup
      rw [List.find?_cons_of_pos _ (by simp)]
      rfl
    · have hhd : ¬ hd.1 = kv.1 := by
        intro hh
        rw [List.map_cons, List.nodup_cons] at hnd
        exact hnd.1 (hh ▸ List.mem_map.mpr ⟨kv, hmem, rfl⟩)
      unfold tallyLookup
      rw [List.find?_cons_of_neg _ (by simpa using hhd)]
      exact ih (by rw [List.map_cons, List.nodup_cons] at hnd; exact hnd.2) hmem

theorem compareDiffExtra_ne_nil (tC iC : Nat) (kv : String × Nat) :
    compareDiffExtra tC iC kv ≠ [] ↔
      ((kv.1 = "Table" ∧ kv.2 ≠ tC) ∨ (kv.1 = "Figure" ∧ kv.2 ≠ iC)) := by
  unfold compareDiffExtra
  by_cases h1 : kv.1 = "Table" ∧ kv.2 ≠ tC
  · rw [if_pos h1]
    simp [h1]
  · rw [if_neg h1]
    by_cases h2 : kv.1 = "Figure" ∧ kv.2 ≠ iC
    · rw [if_pos h2]
      simp [h1, h2]
    · rw [if_neg h2]
      simp [h1, h2]

theorem compareFold_eq (tC iC : Nat) (tally : List (String × Nat)) :
    ∀ acc : List String,
      tally.foldl (fun acc kv =>
        if kv.1 = "Table" ∧ kv.2 ≠ tC then
          acc ++ ["Table count: restructured=" ++ toString tC ++ ", original=" ++
            toString kv.2]
        else if kv.1 = "Figure" ∧ kv.2 ≠ iC then
          acc ++ ["Image count: restructured=" ++ toString iC ++ ", original=" ++
            toString kv.2]
        else acc) acc =
      acc ++ tally.flatMap (compareDiffExtra tC iC) := by
  induction tally with
  | nil => intro acc; simp
  | cons kv tl ih =>
    intro acc
    rw [List.foldl_cons, List.flatMap_cons]
    by_cases h1 : kv.1 = "Table" ∧ kv.2 ≠ tC
    · rw [if_pos h1, ih]
      unfold compareDiffExtra
      rw [if_pos h1, List.append_assoc]
    · rw [if_neg h1]
      by_cases h2 : kv.1 = "Figure" ∧ kv.2 ≠ iC
      · rw [if_pos h2, ih]
        unfold compareDiffExtra
        rw [if_neg h1, if_pos h2, List.append_assoc]
      · rw [if_neg h2, ih]
        unfold compareDiffExtra
        rw [if_neg h1, if_neg h2, List.nil_append]

theorem tally_key_iff (els : List Element) (k : String) (p : Nat → Prop) :
    (∃ kv ∈ elementTally els, kv.1 = k ∧ p kv.2) ↔
      (0 < els.countP (fun e =>
          strStartsWithB e.Path "//Document/" && lastSegment e.Path == k) ∧
       p (els.countP fun e =>
          strStartsWithB e.Path "//Document/" && lastSegment e.Path == k)) := by
  constructor
  · rintro ⟨kv, hkv, rfl, hp⟩
    have hl := lookup_of_mem_nodup _ (elementTally_keys_nodup els) kv hkv
    rw [elementTally_lookup] at hl
    by_cases hc : (els.countP fun e =>
        strStartsWithB e.Path "//Document/" && lastSegment e.Path == kv.1) = 0
    · rw [if_pos hc] at hl
      cases hl
    · rw [if_neg hc] at hl
      have : kv.2 = els.countP fun e =>
          strStartsWithB e.Path "//Document/" && lastSegment e.Path == kv.1 :=
        (Option.some_inj.mp hl).symm
      rw [← this]
      exact ⟨by omega, hp⟩
  · rintro ⟨hpos, hp⟩
    have hl := elementTally_lookup els k
    rw [if_neg (by omega)] at hl
    unfold tallyLookup at hl
    cases hf : (elementTally els).find? fun kv => kv.1 = k with
    | none => rw [hf] at hl; cases hl
    | some kv =>
      rw [hf] at hl
      have hk1 : kv.1 = k := by
        have := List.find?_some hf
        simpa using this
      have hk2 : kv.2 = els.countP fun e =>
          strStartsWithB e.Path "//Document/" && lastSegment e.Path == k :=
        Option.some_inj.mp hl
      exact ⟨kv, List.mem_of_find?_eq_some hf, hk1, by rw [hk2]; exact hp⟩

/-- Claim C9 (amended): the comparison engine's `valid` flag is false iff at
least one difference was recorded, and a difference is recorded iff the page
counts differ, or the raw `"Table"` tally is present (at least one element
with that terminal segment under `//Document/`) and differs from the
document's total table count, or likewise for `"Figure"` versus the total
image count.  A tally of zero (no element with that exact terminal segment)
records no difference, because the comparison loop iterates only over keys
present in the tally dict. -/
theorem c9_comparison_differences (doc : Document) (originalPageCount : Int)
    (els : List Element) :
    ((compareWithOriginal doc originalPageCount els).comparison_valid = false ↔
      (compareWithOriginal doc originalPageCount els).differences ≠ []) ∧
    ((compareWithOriginal doc originalPageCount els).differences ≠ [] ↔
      (doc.metadata.page_count ≠ originalPageCount ∨
       (0 < els.countP (fun e =>
            strStartsWithB e.Path "//Document/" && lastSegment e.Path == "Table") ∧
          els.countP (fun e =>
            strStartsWithB e.Path "//Document/" && lastSegment e.Path == "Table") ≠
            docTotalTables doc) ∨
       (0 < els.countP (fun e =>
            strStartsWithB e.Path "//Document/" && lastSegment e.Path == "Figure") ∧
          els.countP (fun e =>
            strStartsWithB e.Path "//Document/" && lastSegment e.Path == "Figure") ≠
            docTotalImages doc))) := by
  constructor
  · show ((compareWithOriginal doc originalPageCount els).differences.isEmpty = false ↔ _)
    rw [Bool.eq_false_iff]
    exact not_congr List.isEmpty_iff
  · show ((compareWithOriginal doc originalPageCount els).differences ≠ []) ↔ _
    unfold compareWithOriginal
    simp only
    rw [compareFold_eq]
    rw [Ne, List.append_eq_nil, not_and_or]
    have hd0 : (¬ (if doc.metadata.page_count ≠ originalPageCount then
        ["Page count: restructured=" ++ toString doc.metadata.page_count ++
          ", original=" ++ toString originalPageCount] else []) = []) ↔
        doc.metadata.page_count ≠ originalPageCount := by
      by_cases hpc : doc.metadata.page_count ≠ originalPageCount
      · rw [if_pos hpc]
        simp [hpc]
      · rw [if_neg hpc]
        simp [hpc]
    have hfl : (¬ (elementTally els).flatMap
          (compareDiffExtra (docTotalTables doc) (docTotalImages doc)) = []) ↔
        ((0 < els.countP (fun e =>
            strStartsWithB e.Path "//Document/" && lastSegment e.Path == "Table") ∧
          els.countP (fun e =>
            strStartsWithB e.Path "//Document/" && lastSegment e.Path == "Table") ≠
            docTotalTables doc) ∨
         (0 < els.countP (fun e =>
            strStartsWithB e.Path "//Document/" && lastSegment e.Path == "Figure") ∧
          els.countP (fun e =>
            strStartsWithB e.Path "//Document/" && lastSegment e.Path == "Figure") ≠
            docTotalImages doc)) := by
      rw [List.flatMap_eq_nil_iff]
      push_neg
      constructor
      · rintro ⟨kv, hkv, hne⟩
        rcases (compareDiffExtra_ne_nil _ _ kv).mp hne with ⟨h1, h2⟩ | ⟨h1, h2⟩
        · exact Or.inl ((tally_key_iff els "Table" (fun n => n ≠ docTotalTables doc)).mp
            ⟨kv, hkv, h1, h2⟩)
        · exact Or.inr ((tally_key_iff els "Figure" (fun n => n ≠ docTotalImages doc)).mp
            ⟨kv, hkv, h1, h2⟩)
      · rintro (h | h)
        · rcases (tally_key_iff els "Table" (fun n => n ≠ docTotalTables doc)).mpr h with
            ⟨kv, hkv, h1, h2⟩
          exact ⟨kv, hkv, (compareDiffExtra_ne_nil _ _ kv).mpr (Or.inl ⟨h1, h2⟩)⟩
        · rcases (tally_key_iff els "Figure" (fun n => n ≠ docTotalImages doc)).mpr h with
            ⟨kv, hkv, h1, h2⟩
          exact ⟨kv, hkv, (compareDiffExtra_ne_nil _ _ kv).mpr (Or.inr ⟨h1, h2⟩)⟩
    rw [hd0, hfl]

/-- Counterexample to C9 as stated: a document with one table but an empty
raw element list (so the raw `"Table"` tally is zero and absent from the
tally dict) yields no difference and `comparison_valid = true`, although the
claim requires recording the 0 ≠ 1 table-count mismatch. -/
theorem c9_counterexample :
    (compareWithOriginal
        { document_id := "d"
          metadata := ⟨"s.pdf", 1, "", "", ""⟩
          pages := [{ page_number := 1, text := ""
                      tables := [{ table_id := "t1", data := [["A"]], bounds := []
                                   bbox := [], num_rows := 1, placement := "Unknown" }]
                      images := [] }] } 1 []).comparison_valid = true ∧
    (compareWithOriginal
        { document_id := "d"
          metadata := ⟨"s.pdf", 1, "", "", ""⟩
          pages := [{ page_number := 1, text := ""
                      tables := [{ table_id := "t1", data := [["A"]], bounds := []
                                   bbox := [], num_rows := 1, placement := "Unknown" }]
                      images := [] }] } 1 []).differences = [] ∧
    docTotalTables
        { document_id := "d"
          metadata := ⟨"s.pdf", 1, "", "", ""⟩
          pages := [{ page_number := 1, text := ""
                      tables := [{ table_id := "t1", data := [["A"]], bounds := []
                                   bbox := [], num_rows := 1, placement := "Unknown" }]
                      images := [] }] } = 1 :=
  ⟨rfl, rfl, rfl⟩

/-! ### Structure-verifier lemmas (claims C3 and C1) -/

/-- Claim C3 (amended): `verify_structure` accumulates failures without
short-circuiting only after the top-level required-key check: when any of
`document_id`, `metadata`, `pages` is missing it returns immediately, with
exactly the missing-key issues and an empty summary, performing none of the
later checks; in every case where it returns, the `structure_valid` flag is
false iff the issues list is non-empty. -/
theorem c3_verify_structure_short_circuit :
    (∀ data : JObj, requiredKeyIssues data ≠ [] →
      verifyStructure data = some ⟨false, requiredKeyIssues data, none⟩) ∧
    (∀ (data : JObj) (r : StructureResult), verifyStructure data = some r →
      (r.structure_valid = false ↔ r.issues ≠ [])) := by
  constructor
  · intro data hne
    unfold verifyStructure
    rw [if_neg (by simpa [List.isEmpty_iff] using hne)]
  · intro data r h
    unfold verifyStructure at h
    by_cases hmiss : (requiredKeyIssues data).isEmpty = true
    · rw [if_pos hmiss] at h
      dsimp only at h
      cases hm1 : metadataIssues ((jLookup data "metadata").getD (JVal.obj [])) with
      | none => rw [hm1] at h; cases h
      | some mIss =>
        rw [hm1] at h
        cases hm2 : jGetD ((jLookup data "metadata").getD (JVal.obj []))
            "page_count" (JVal.int 0) with
        | none => rw [hm2] at h; cases h
        | some expected =>
          rw [hm2] at h
          cases hm3 : pyLen ((jLookup data "pages").getD (JVal.arr [])) with
          | none => rw [hm3] at h; cases h
          | some nPages =>
            rw [hm3] at h
            cases hm4 : jElems ((jLookup data "pages").getD (JVal.arr [])) with
            | none => rw [hm4] at h; cases h
            | some pageList =>
              rw [hm4] at h
              simp only [Option.some_bind] at h
              cases hm5 : enumIssues pageIssues1 0 pageList with
              | none => rw [hm5] at h; cases h
              | some pgIss =>
                rw [hm5] at h
                cases hm6 : structSummaryOf nPages pageList with
                | none => rw [hm6] at h; cases h
                | some summ =>
                  rw [hm6] at h
                  simp only [Option.some_bind, Option.map_some'] at h
                  cases h
                  simp only
                  rw [Bool.eq_false_iff]
                  exact not_congr List.isEmpty_iff
    · rw [if_neg hmiss] at h
      cases h
      exact iff_of_true rfl (by simpa [List.isEmpty_iff] using hmiss)

/-- Counterexample to C3 as stated: on the empty document shape `{}`, the
verifier returns after the required-key loop with exactly the three
missing-key issues; the metadata-field issues the claim requires (such
as `"Missing metadata key: source"`) never appear. -/
theorem c3_counterexample :
    verifyStructure [] = some ⟨false,
      ["Missing required key: document_id", "Missing required key: metadata",
       "Missing required key: pages"], none⟩ ∧
    "Missing metadata key: source" ∉
      ["Missing required key: document_id", "Missing required key: metadata",
       "Missing required key: pages"] :=
  ⟨rfl, by decide⟩

/-- Witness for C3 (amended), applying both conjuncts to the empty shape. -/
theorem c3_verify_structure_short_circuit_witness :
    verifyStructure [] = some ⟨false, requiredKeyIssues [], none⟩ ∧
    requiredKeyIssues [] ≠ [] :=
  ⟨c3_verify_structure_short_circuit.1 [] (by decide),
   (c3_verify_structure_short_circuit.2 []
     ⟨false, requiredKeyIssues [], none⟩
     (c3_verify_structure_short_circuit.1 [] (by decide))).mp rfl⟩

/-! ### Grid shape lemmas (claim C4) -/

theorem le_foldl_max (l : List Int) (a : Int) : a ≤ l.foldl max a := by
  induction l generalizing a with
  | nil => exact le_refl a
  | cons y ys ih => exact le_trans (le_max_left a y) (ih (max a y))

theorem foldl_max_le_mem {l : List Int} {x : Int} (h : x ∈ l) (a : Int) :
    x ≤ l.foldl max a := by
  induction l generalizing a with
  | nil => cases h
  | cons y ys ih =>
    rcases List.mem_cons.mp h with rfl | hm
    · exact le_trans (le_max_right a x) (le_foldl_max ys (max a x))
    · exact ih hm (max a y)

theorem pyMaxList_ge {l : List Int} {x : Int} (h : x ∈ l) : x ≤ pyMaxList l := by
  cases l with
  | nil => cases h
  | cons y ys =>
    unfold pyMaxList
    rcases List.mem_cons.mp h with rfl | hm
    · exact le_foldl_max ys x
    · exact foldl_max_le_mem hm y

theorem chg_pairwise (p : Int) (rs : List Int)
    (h : (p :: rs).Pairwise (fun a b => a ≤ b)) :
    chg p rs = (rs.toFinset.erase p).card := by
  induction rs generalizing p with
  | nil => simp [chg]
  | cons x xs ih =>
    have hpx : p ≤ x := (List.pairwise_cons.mp h).1 x (List.mem_cons_self x xs)
    have htail : (x :: xs).Pairwise (fun a b => a ≤ b) := (List.pairwise_cons.mp h).2
    have hxall : ∀ y ∈ xs, x ≤ y := (List.pairwise_cons.mp htail).1
    by_cases hxp : x = p
    · have hstep : chg p (x :: xs) = chg x xs := by
        simp [chg, hxp]
      rw [hstep, ih x htail, List.toFinset_cons, hxp, Finset.erase_insert_eq_erase]
    · have hstep : chg p (x :: xs) = 1 + chg x xs := by
        simp [chg, hxp]
      rw [hstep, ih x htail, List.toFinset_cons]
      have hpnot : p ∉ insert x xs.toFinset := by
        simp only [Finset.mem_insert, List.mem_toFinset]
        push_neg
        exact ⟨fun hh => hxp hh.symm, fun hm => hxp (le_antisymm (hxall p hm) hpx)⟩
      rw [Finset.erase_eq_of_not_mem hpnot]
      by_cases hx : x ∈ xs.toFinset
      · rw [Finset.insert_eq_self.mpr hx, ← Finset.card_erase_add_one hx]
        omega
      · rw [Finset.card_insert_of_not_mem hx, Finset.erase_eq_of_not_mem hx]
        omega

theorem pySetItem_eval (row : List String) (i : Int) (s : String)
    (h0 : 0 ≤ i) (hlt : i < (row.length : Int)) :
    pySetItem row i s = some (row.set i.toNat s) := by
  unfold pySetItem
  rw [if_pos hlt, if_pos h0]

theorem gridRun_inv (W : Nat) (hW : 0 < W) (P : String → Prop) (hPe : P "") :
    ∀ (items : List (Int × Int × String)) (td : List (List String))
      (cur : List String) (idx : Int),
    (∀ it ∈ items, 0 ≤ it.2.1 ∧ it.2.1 < (W : Int) ∧ P it.2.2) →
    cur.length = W →
    (∀ row ∈ td, row.length = W ∧ ∀ s ∈ row, P s) →
    (∀ s ∈ cur, P s) →
    ∃ td' cur' idx',
      gridRun W items (td, cur, idx) = some (td', cur', idx') ∧
      td'.length = td.length + chg idx (items.map fun it => it.1) ∧
      (∀ row ∈ td', row.length = W ∧ ∀ s ∈ row, P s) ∧
      cur'.length = W ∧ (∀ s ∈ cur', P s) := by
  intro items
  induction items with
  | nil =>
    intro td cur idx _ hcur htd hcp
    exact ⟨td, cur, idx, rfl, by simp [chg], htd, hcur, hcp⟩
  | cons it its ih =>
    intro td cur idx hit hcur htd hcp
    obtain ⟨hc0, hcW, hPit⟩ := hit it (List.mem_cons_self _ _)
    have hittail : ∀ it2 ∈ its, 0 ≤ it2.2.1 ∧ it2.2.1 < (W : Int) ∧ P it2.2.2 :=
      fun it2 h2 => hit it2 (List.mem_cons_of_mem _ h2)
    by_cases hb : it.1 = idx
    · have hstep : gridStep W (td, cur, idx) it =
          some (td, cur.set it.2.1.toNat it.2.2, idx) := by
        unfold gridStep
        dsimp only
        simp only [if_neg (not_not_intro hb)]
        rw [pySetItem_eval cur it.2.1 it.2.2 hc0 (by rw [hcur]; exact hcW)]
        rfl
      have hrun : gridRun W (it :: its) (td, cur, idx) =
          gridRun W its (td, cur.set it.2.1.toNat it.2.2, idx) := by
        unfold gridRun
        rw [List.foldl_cons]
        rw [Option.some_bind, hstep]
      obtain ⟨td', cur', idx', hrun2, hlen, htd', hcur', hcp'⟩ :=
        ih td (cur.set it.2.1.toNat it.2.2) idx hittail
          (by rw [List.length_set]; exact hcur) htd
          (fun s hs => (List.mem_or_eq_of_mem_set hs).elim (hcp s)
            (fun hh => hh.symm ▸ hPit))
      refine ⟨td', cur', idx', by rw [hrun]; exact hrun2, ?_, htd', hcur', hcp'⟩
      rw [hlen, List.map_cons]
      simp only [chg]
      rw [if_neg (not_not_intro hb), hb]
      omega
    · have hcne : cur.isEmpty = false := by
        rw [Bool.eq_false_iff]
        intro hh
        rw [List.isEmpty_iff] at hh
        rw [hh] at hcur
        simp at hcur
        omega
      have hstep : gridStep W (td, cur, idx) it =
          some (td ++ [cur],
            (List.replicate W "").set it.2.1.toNat it.2.2, it.1) := by
        unfold gridStep
        dsimp only
        simp only [if_pos hb]
        rw [pySetItem_eval (List.replicate W "") it.2.1 it.2.2 hc0
          (by rw [List.length_replicate]; exact hcW)]
        simp only [Option.map_some', hcne, Bool.false_eq_true, if_false]
      have hrun : gridRun W (it :: its) (td, cur, idx) =
          gridRun W its (td ++ [cur],
            (List.replicate W "").set it.2.1.toNat it.2.2, it.1) := by
        unfold gridRun
        rw [List.foldl_cons]
        rw [Option.some_bind, hstep]
      obtain ⟨td', cur', idx', hrun2, hlen, htd', hcur', hcp'⟩ :=
        ih (td ++ [cur]) ((List.replicate W "").set it.2.1.toNat it.2.2) it.1 hittail
          (by rw [List.length_set, List.length_replicate])
          (by
            intro row hrow
            rcases List.mem_append.mp hrow with hrm | hrm
            · exact htd row hrm
            · rw [List.mem_singleton] at hrm
              subst hrm
              exact ⟨hcur, hcp⟩)
          (fun s hs => (List.mem_or_eq_of_mem_set hs).elim
            (fun hm => (List.eq_of_mem_replicate hm).symm ▸ hPe)
            (fun hh => hh.symm ▸ hPit))
      refine ⟨td', cur', idx', by rw [hrun]; exact hrun2, ?_, htd', hcur', hcp'⟩
      rw [hlen, List.map_cons]
      simp only [chg]
      rw [if_pos hb, List.length_append]
      simp only [List.length_singleton]
      omega

theorem extractTableData_eval (t : Element) (all : List Element)
    (c0 : Element) (rest : List Element) (hcells : cellsOf t all = c0 :: rest) :
    extractTableData t all =
      (gridRun (pyMaxList ((c0 :: rest).map colIndexOf) + 1).toNat
        ((List.insertionSort cellLE (c0 :: rest)).map fun c =>
          (rowIndexOf c, colIndexOf c, cellTextOf c.Path all)) ([], [], -1)).map
        fun st => if st.2.1.isEmpty then st.1 else st.1 ++ [st.2.1] := by
  unfold extractTableData
  rw [hcells]

/-- Claim C4 (amended): for every table element and element list whose
collected cells all carry non-negative `RowIndex` and `ColIndex` attributes,
the grid builder `_extract_table_data` succeeds and returns exactly one row
per distinct `RowIndex` value among the cells, every row has exactly
`max(ColIndex) + 1` entries (computed once over the full cell set), every
entry is either the empty string or the recovered text of one of the cells,
and when no cells are found the grid is empty.  (The non-negativity
hypotheses are forced by the counterexample below: a cell whose `RowIndex`
equals the `-1` sentinel of `current_row_idx` is silently dropped, so the
grid has fewer rows than distinct `RowIndex` values.) -/
theorem c4_grid_shape (t : Element) (all : List Element)
    (hR : ∀ e ∈ cellsOf t all, 0 ≤ rowIndexOf e)
    (hC : ∀ e ∈ cellsOf t all, 0 ≤ colIndexOf e) :
    ∃ td, extractTableData t all = some td ∧
      td.length = ((cellsOf t all).map rowIndexOf).toFinset.card ∧
      (∀ row ∈ td,
        row.length = (pyMaxList ((cellsOf t all).map colIndexOf) + 1).toNat) ∧
      (∀ row ∈ td, ∀ s ∈ row,
        s = "" ∨ ∃ e ∈ cellsOf t all, s = cellTextOf e.Path all) ∧
      (cellsOf t all = [] → td = []) := by
  cases hcells : cellsOf t all with
  | nil =>
    refine ⟨[], ?_, by simp, by simp, by simp, fun _ => rfl⟩
    unfold extractTableData
    rw [hcells]
  | cons c0 rest =>
    rw [hcells] at hR hC
    have hmaxge : ∀ e ∈ c0 :: rest,
        colIndexOf e ≤ pyMaxList ((c0 :: rest).map colIndexOf) :=
      fun e he => pyMaxList_ge (List.mem_map_of_mem colIndexOf he)
    have hmax0 : 0 ≤ pyMaxList ((c0 :: rest).map colIndexOf) :=
      le_trans (hC c0 (List.mem_cons_self _ _)) (hmaxge c0 (List.mem_cons_self _ _))
    have hWcast : ((pyMaxList ((c0 :: rest).map colIndexOf) + 1).toNat : Int) =
        pyMaxList ((c0 :: rest).map colIndexOf) + 1 :=
      Int.toNat_of_nonneg (by omega)
    have hW : 0 < (pyMaxList ((c0 :: rest).map colIndexOf) + 1).toNat := by omega
    cases hsorted : List.insertionSort cellLE (c0 :: rest) with
    | nil =>
      exfalso
      have hpermlen := (List.perm_insertionSort cellLE (c0 :: rest)).length_eq
      rw [hsorted] at hpermlen
      simp at hpermlen
    | cons s0 stail =>
      have hsmem : ∀ e ∈ s0 :: stail, e ∈ c0 :: rest := fun e he =>
        (List.perm_insertionSort cellLE (c0 :: rest)).mem_iff.mp (hsorted.symm ▸ he)
      have hb0 : rowIndexOf s0 ≠ (-1 : Int) := by
        have := hR s0 (hsmem s0 (List.mem_cons_self _ _))
        omega
      have hcol0 : 0 ≤ colIndexOf s0 := hC s0 (hsmem s0 (List.mem_cons_self _ _))
      have hcolW : ∀ e ∈ c0 :: rest,
          colIndexOf e <
            ((pyMaxList ((c0 :: rest).map colIndexOf) + 1).toNat : Int) := by
        intro e he
        rw [hWcast]
        have := hmaxge e he
        omega
      have hstep0 : gridStep (pyMaxList ((c0 :: rest).map colIndexOf) + 1).toNat
          ([], [], (-1 : Int))
          (rowIndexOf s0, colIndexOf s0, cellTextOf s0.Path all) =
          some ([],
            (List.replicate (pyMaxList ((c0 :: rest).map colIndexOf) + 1).toNat
              "").set (colIndexOf s0).toNat (cellTextOf s0.Path all),
            rowIndexOf s0) := by
        unfold gridStep
        dsimp only
        simp only [if_pos hb0]
        rw [pySetItem_eval _ _ _ hcol0
          (by
            rw [List.length_replicate]
            exact hcolW s0 (hsmem s0 (List.mem_cons_self _ _)))]
        rfl
      have hrun0 : gridRun (pyMaxList ((c0 :: rest).map colIndexOf) + 1).toNat
          ((s0 :: stail).map fun c =>
            (rowIndexOf c, colIndexOf c, cellTextOf c.Path all)) ([], [], -1) =
          gridRun (pyMaxList ((c0 :: rest).map colIndexOf) + 1).toNat
            (stail.map fun c =>
              (rowIndexOf c, colIndexOf c, cellTextOf c.Path all))
            ([],
              (List.replicate (pyMaxList ((c0 :: rest).map colIndexOf) + 1).toNat
                "").set (colIndexOf s0).toNat (cellTextOf s0.Path all),
              rowIndexOf s0) := by
        unfold gridRun
        have hitems : (s0 :: stail).map (fun c =>
            (rowIndexOf c, colIndexOf c, cellTextOf c.Path all)) =
            (rowIndexOf s0, colIndexOf s0, cellTextOf s0.Path all) ::
              stail.map (fun c =>
                (rowIndexOf c, colIndexOf c, cellTextOf c.Path all)) := rfl
        rw [hitems, List.foldl_cons]
        rw [Option.some_bind, hstep0]
      obtain ⟨td', cur', idx', hrun2, hlen, htd', hcur', hcp'⟩ :=
        gridRun_inv (pyMaxList ((c0 :: rest).map colIndexOf) + 1).toNat hW
          (fun s => s = "" ∨ ∃ e ∈ c0 :: rest, s = cellTextOf e.Path all)
          (Or.inl rfl)
          (stail.map fun c => (rowIndexOf c, colIndexOf c, cellTextOf c.Path all))
          []
          ((List.replicate (pyMaxList ((c0 :: rest).map colIndexOf) + 1).toNat
            "").set (colIndexOf s0).toNat (cellTextOf s0.Path all))
          (rowIndexOf s0)
          (by
            intro it hit
            rcases List.mem_map.mp hit with ⟨c, hcm, rfl⟩
            have hcc : c ∈ c0 :: rest := hsmem c (List.mem_cons_of_mem _ hcm)
            exact ⟨hC c hcc, hcolW c hcc, Or.inr ⟨c, hcc, rfl⟩⟩)
          (by rw [List.length_set, List.length_replicate])
          (fun row hrow => absurd hrow (List.not_mem_nil row))
          (by
            intro s hs
            rcases List.mem_or_eq_of_mem_set hs with hm | hh
            · exact Or.inl (List.eq_of_mem_replicate hm)
            · exact Or.inr ⟨s0, hsmem s0 (List.mem_cons_self _ _), hh⟩)
      have hcne' : cur'.isEmpty = false := by
        rw [Bool.eq_false_iff]
        intro hh
        rw [List.isEmpty_iff] at hh
        rw [hh] at hcur'
        rw [List.length_nil] at hcur'
        omega
      refine ⟨td' ++ [cur'], ?_, ?_, ?_, ?_,
        fun hcontra => absurd hcontra (List.cons_ne_nil _ _)⟩
      · rw [extractTableData_eval t all c0 rest hcells, hsorted, hrun0, hrun2]
        simp only [Option.map_some', hcne', Bool.false_eq_true, if_false]
      · have hmapfst : ((stail.map fun c =>
            (rowIndexOf c, colIndexOf c, cellTextOf c.Path all)).map
              fun it => it.1) = stail.map rowIndexOf := by
          rw [List.map_map]
          rfl
        have hsortp : List.Pairwise cellLE (s0 :: stail) := by
          have hss := List.sorted_insertionSort cellLE (c0 :: rest)
          rw [hsorted] at hss
          exact hss
        have hrowp : List.Pairwise (fun a b : Int => a ≤ b)
            ((s0 :: stail).map rowIndexOf) :=
          List.Pairwise.map rowIndexOf
            (fun a b hab => by
              unfold cellLE at hab
              rcases hab with h1 | ⟨h1, h2⟩
              · exact le_of_lt h1
              · exact le_of_eq h1) hsortp
        have hpair : List.Pairwise (fun a b : Int => a ≤ b)
            ((-1 : Int) :: (s0 :: stail).map rowIndexOf) := by
          rw [List.pairwise_cons]
          refine ⟨?_, hrowp⟩
          intro y hy
          rcases List.mem_map.mp hy with ⟨c, hcm, rfl⟩
          have := hR c (hsmem c hcm)
          omega
        have hchg := chg_pairwise (-1) ((s0 :: stail).map rowIndexOf) hpair
        have hnot : (-1 : Int) ∉ ((s0 :: stail).map rowIndexOf).toFinset := by
          rw [List.mem_toFinset]
          intro hy
          rcases List.mem_map.mp hy with ⟨c, hcm, hc⟩
          have := hR c (hsmem c hcm)
          omega
        rw [Finset.erase_eq_of_not_mem hnot] at hchg
        have hfs : ((s0 :: stail).map rowIndexOf).toFinset =
            ((c0 :: rest).map rowIndexOf).toFinset :=
          List.toFinset_eq_of_perm _ _
            ((hsorted ▸ List.perm_insertionSort cellLE (c0 :: rest)).map rowIndexOf)
        have hchg2 : chg (-1) ((s0 :: stail).map rowIndexOf) =
            1 + chg (rowIndexOf s0) (stail.map rowIndexOf) := by
          rw [List.map_cons]
          simp only [chg]
          rw [if_pos hb0]
        rw [List.length_append, List.length_singleton, hlen, hmapfst,
          ← hfs, ← hchg, hchg2]
        simp only [List.length_nil]
        omega
      · intro row hrow
        rcases List.mem_append.mp hrow with hrm | hrm
        · exact (htd' row hrm).1
        · rw [List.mem_singleton] at hrm
          subst hrm
          exact hcur'
      · intro row hrow s hs
        rcases List.mem_append.mp hrow with hrm | hrm
        · exact (htd' row hrm).2 s hs
        · rw [List.mem_singleton] at hrm
          subst hrm
          exact hcp' s hs

/-- Counterexample to C4 as stated: a single cell whose `RowIndex` attribute
is `-1` collides with the loop's `current_row_idx = -1` sentinel, so no row is
ever started and the returned grid is empty even though the cell set has one
distinct `RowIndex` value. -/
theorem c4_counterexample :
    extractTableData { Path := "//Document/Table[1]" }
        [{ Path := "//Document/Table[1]/TR[1]/TD[1]",
           attributes := { RowIndex := -1, ColIndex := 0 } }] = some [] ∧
    ((cellsOf { Path := "//Document/Table[1]" }
        [{ Path := "//Document/Table[1]/TR[1]/TD[1]",
           attributes := { RowIndex := -1, ColIndex := 0 } }]).map
      rowIndexOf).toFinset.card = 1 :=
  ⟨by decide, by decide⟩

/-- Witness for C4 (amended) on the three-cell table of the specification's
Scenario B: both non-negativity hypotheses hold and the grid shape follows. -/
theorem c4_grid_shape_witness :
    (∀ e ∈ cellsOf { Path := "//Document/Table[1]" }
        [{ Path := "//Document/Table[1]/TR[1]/TD[1]",
           attributes := { RowIndex := 0, ColIndex := 0 } },
         { Path := "//Document/Table[1]/TR[1]/TD[2]",
           attributes := { RowIndex := 0, ColIndex := 1 } },
         { Path := "//Document/Table[1]/TR[2]/TD[1]",
           attributes := { RowIndex := 1, ColIndex := 0 } }], 0 ≤ rowIndexOf e) ∧
    (∀ e ∈ cellsOf { Path := "//Document/Table[1]" }
        [{ Path := "//Document/Table[1]/TR[1]/TD[1]",
           attributes := { RowIndex := 0, ColIndex := 0 } },
         { Path := "//Document/Table[1]/TR[1]/TD[2]",
           attributes := { RowIndex := 0, ColIndex := 1 } },
         { Path := "//Document/Table[1]/TR[2]/TD[1]",
           attributes := { RowIndex := 1, ColIndex := 0 } }], 0 ≤ colIndexOf e) ∧
    (∃ td, extractTableData { Path := "//Document/Table[1]" }
        [{ Path := "//Document/Table[1]/TR[1]/TD[1]",
           attributes := { RowIndex := 0, ColIndex := 0 } },
         { Path := "//Document/Table[1]/TR[1]/TD[2]",
           attributes := { RowIndex := 0, ColIndex := 1 } },
         { Path := "//Document/Table[1]/TR[2]/TD[1]",
           attributes := { RowIndex := 1, ColIndex := 0 } }] = some td ∧
      td.length = ((cellsOf { Path := "//Document/Table[1]" }
        [{ Path := "//Document/Table[1]/TR[1]/TD[1]",
           attributes := { RowIndex := 0, ColIndex := 0 } },
         { Path := "//Document/Table[1]/TR[1]/TD[2]",
           attributes := { RowIndex := 0, ColIndex := 1 } },
         { Path := "//Document/Table[1]/TR[2]/TD[1]",
           attributes := { RowIndex := 1, ColIndex := 0 } }]).map
          rowIndexOf).toFinset.card ∧
      (∀ row ∈ td, row.length =
        (pyMaxList ((cellsOf { Path := "//Document/Table[1]" }
          [{ Path := "//Document/Table[1]/TR[1]/TD[1]",
             attributes := { RowIndex := 0, ColIndex := 0 } },
           { Path := "//Document/Table[1]/TR[1]/TD[2]",
             attributes := { RowIndex := 0, ColIndex := 1 } },
           { Path := "//Document/Table[1]/TR[2]/TD[1]",
             attributes := { RowIndex := 1, ColIndex := 0 } }]).map
            colIndexOf) + 1).toNat) ∧
      (∀ row ∈ td, ∀ s ∈ row,
        s = "" ∨ ∃ e ∈ cellsOf { Path := "//Document/Table[1]" }
          [{ Path := "//Document/Table[1]/TR[1]/TD[1]",
             attributes := { RowIndex := 0, ColIndex := 0 } },
           { Path := "//Document/Table[1]/TR[1]/TD[2]",
             attributes := { RowIndex := 0, ColIndex := 1 } },
           { Path := "//Document/Table[1]/TR[2]/TD[1]",
             attributes := { RowIndex := 1, ColIndex := 0 } }],
          s = cellTextOf e.Path
            [{ Path := "//Document/Table[1]/TR[1]/TD[1]",
               attributes := { RowIndex := 0, ColIndex := 0 } },
             { Path := "//Document/Table[1]/TR[1]/TD[2]",
               attributes := { RowIndex := 0, ColIndex := 1 } },
             { Path := "//Document/Table[1]/TR[2]/TD[1]",
               attributes := { RowIndex := 1, ColIndex := 0 } }]) ∧
      (cellsOf { Path := "//Document/Table[1]" }
        [{ Path := "//Document/Table[1]/TR[1]/TD[1]",
           attributes := { RowIndex := 0, ColIndex := 0 } },
         { Path := "//Document/Table[1]/TR[1]/TD[2]",
           attributes := { RowIndex := 0, ColIndex := 1 } },
         { Path := "//Document/Table[1]/TR[2]/TD[1]",
           attributes := { RowIndex := 1, ColIndex := 0 } }] = [] → td = [])) :=
  ⟨by decide, by decide, c4_grid_shape _ _ (by decide) (by decide)⟩

/-! ### Structure verification of assembled documents (claim C1) -/

theorem append_ne_empty_of_left_ne (a b : String) (ha : a ≠ "") : a ++ b ≠ "" := by
  intro hh
  have hd := congrArg String.data hh
  rw [String.data_append] at hd
  exact ha (String.ext (List.append_eq_nil.mp hd).1)

theorem sumOption_some_aux (f : JVal → Option Nat) :
    ∀ (l : List JVal), (∀ p ∈ l, (f p).isSome = true) → ∀ a : Nat,
      ∃ m, l.foldl (fun acc p => acc.bind fun n => (f p).map (n + ·)) (some a) =
        some m := by
  intro l
  induction l with
  | nil => intro _ a; exact ⟨a, rfl⟩
  | cons p ps ih =>
    intro h a
    cases hf : f p with
    | none =>
      have hcontra := h p (List.mem_cons_self _ _)
      rw [hf] at hcontra
      cases hcontra
    | some k =>
      obtain ⟨m, hm⟩ := ih (fun q hq => h q (List.mem_cons_of_mem _ hq)) (a + k)
      refine ⟨m, ?_⟩
      rw [List.foldl_cons, Option.some_bind, hf, Option.map_some']
      exact hm

theorem sumOption_some (l : List JVal) (f : JVal → Option Nat)
    (h : ∀ p ∈ l, (f p).isSome = true) : ∃ m, sumOption l f = some m :=
  sumOption_some_aux f l h 0

theorem structSummaryOf_pages (n : Nat) (ps : List Page) :
    ∃ s, structSummaryOf n (ps.map pageToJ) = some s := by
  obtain ⟨t1, h1⟩ := sumOption_some (ps.map pageToJ)
    (fun p => (jGetD p "tables" (.arr [])).bind pyLen)
    (by intro p hp; rcases List.mem_map.mp hp with ⟨q, _, rfl⟩; rfl)
  obtain ⟨t2, h2⟩ := sumOption_some (ps.map pageToJ)
    (fun p => (jGetD p "images" (.arr [])).bind pyLen)
    (by intro p hp; rcases List.mem_map.mp hp with ⟨q, _, rfl⟩; rfl)
  obtain ⟨t3, h3⟩ := sumOption_some (ps.map pageToJ)
    (fun p => (jGetD p "text" (.str "")).bind pyLen)
    (by intro p hp; rcases List.mem_map.mp hp with ⟨q, _, rfl⟩; rfl)
  obtain ⟨t4, h4⟩ := sumOption_some (ps.map pageToJ)
    (fun p =>
      (jGetD p "text" .null).bind fun tx =>
      (jGetD p "tables" .null).bind fun tb =>
      (jGetD p "images" .null).map fun im =>
      if pyTruthy tx || pyTruthy tb || pyTruthy im then 1 else 0)
    (by intro p hp; rcases List.mem_map.mp hp with ⟨q, _, rfl⟩; rfl)
  refine ⟨StructSummary.mk n t1 t2 t3 t4, ?_⟩
  unfold structSummaryOf
  rw [h1, Option.some_bind, h2, Option.some_bind, h3, Option.some_bind, h4,
    Option.map_some']

theorem tableIssue1_eval (pn j : Nat) (t : Table) (hid : t.table_id ≠ "") :
    ∃ iss, tableIssue1 pn j (tableToJ t) = some iss ∧ (iss = [] ↔ t.data ≠ []) := by
  have hform : tableIssue1 pn j (tableToJ t) =
      some ((if pyTruthy (.str t.table_id) then [] else
          ["Page " ++ toString pn ++ ": Table t" ++ toString (j + 1) ++
            " missing table_id"]) ++
        (if pyTruthy (.arr (t.data.map fun r => .arr (r.map .str))) then [] else
          ["Page " ++ toString pn ++ ": Table t" ++ toString (j + 1) ++
            " missing data"])) := rfl
  have htid : pyTruthy (JVal.str t.table_id) = true := decide_eq_true hid
  refine ⟨(if pyTruthy (.arr (t.data.map fun r => .arr (r.map .str))) then [] else
      ["Page " ++ toString pn ++ ": Table t" ++ toString (j + 1) ++
        " missing data"]), ?_, ?_⟩
  · rw [hform, htid, if_pos rfl, List.nil_append]
  · cases hd : t.data with
    | nil => simp [pyTruthy]
    | cons r rs => simp [pyTruthy]

theorem imageIssue1_eval (pn j : Nat) (im : Image)
    (hid : im.image_id ≠ "") (hpth : im.path ≠ "") :
    imageIssue1 pn j (imageToJ im) = some [] := by
  have hform : imageIssue1 pn j (imageToJ im) =
      some ((if pyTruthy (.str im.image_id) then [] else
          ["Page " ++ toString pn ++ ": Image i" ++ toString (j + 1) ++
            " missing image_id"]) ++
        (if pyTruthy (.str im.path) then [] else
          ["Page " ++ toString pn ++ ": Image i" ++ toString (j + 1) ++
            " missing path"])) := rfl
  rw [hform, show pyTruthy (JVal.str im.image_id) = true from decide_eq_true hid,
    show pyTruthy (JVal.str im.path) = true from decide_eq_true hpth,
    if_pos rfl, if_pos rfl]
  rfl

theorem enumIssues_tables (pn : Nat) (ts : List Table)
    (hid : ∀ t ∈ ts, t.table_id ≠ "") : ∀ j : Nat,
    ∃ iss, enumIssues (tableIssue1 pn) j (ts.map tableToJ) = some iss ∧
      (iss = [] ↔ ∀ t ∈ ts, t.data ≠ []) := by
  induction ts with
  | nil => intro j; exact ⟨[], rfl, by simp⟩
  | cons t ts ih =>
    intro j
    obtain ⟨iss1, h1, hiff1⟩ := tableIssue1_eval pn j t (hid t (List.mem_cons_self _ _))
    obtain ⟨iss2, h2, hiff2⟩ := ih (fun u hu => hid u (List.mem_cons_of_mem _ hu)) (j + 1)
    refine ⟨iss1 ++ iss2, ?_, ?_⟩
    · have hc : enumIssues (tableIssue1 pn) j ((t :: ts).map tableToJ) =
          (tableIssue1 pn j (tableToJ t)).bind fun a =>
          (enumIssues (tableIssue1 pn) (j + 1) (ts.map tableToJ)).map fun b =>
            a ++ b := rfl
      rw [hc, h1, Option.some_bind, h2, Option.map_some']
    · rw [List.append_eq_nil, hiff1, hiff2]
      constructor
      · rintro ⟨ha, hb⟩ u hu
        rcases List.mem_cons.mp hu with rfl | hu2
        · exact ha
        · exact hb u hu2
      · intro hall
        exact ⟨hall _ (List.mem_cons_self _ _),
          fun u hu => hall u (List.mem_cons_of_mem _ hu)⟩

theorem enumIssues_images (pn : Nat) (ims : List Image)
    (hid : ∀ im ∈ ims, im.image_id ≠ "" ∧ im.path ≠ "") : ∀ j : Nat,
    enumIssues (imageIssue1 pn) j (ims.map imageToJ) = some [] := by
  induction ims with
  | nil => intro j; rfl
  | cons im ims ih =>
    intro j
    have hc : enumIssues (imageIssue1 pn) j ((im :: ims).map imageToJ) =
        (imageIssue1 pn j (imageToJ im)).bind fun a =>
        (enumIssues (imageIssue1 pn) (j + 1) (ims.map imageToJ)).map fun b =>
          a ++ b := rfl
    rw [hc, imageIssue1_eval pn j im (hid im (List.mem_cons_self _ _)).1
        (hid im (List.mem_cons_self _ _)).2, Option.some_bind,
      ih (fun u hu => hid u (List.mem_cons_of_mem _ hu)) (j + 1), Option.map_some']
    rfl

theorem pageIssues1_eval (i : Nat) (p : Page)
    (hnum : p.page_number = Int.ofNat i + 1)
    (htid : ∀ t ∈ p.tables, t.table_id ≠ "")
    (him : ∀ im ∈ p.images, im.image_id ≠ "" ∧ im.path ≠ "") :
    ∃ iss, pageIssues1 i (pageToJ p) = some iss ∧
      (iss = [] ↔ ∀ t ∈ p.tables, t.data ≠ []) := by
  have hform : pageIssues1 i (pageToJ p) =
      (enumIssues (tableIssue1 (i + 1)) 0 (p.tables.map tableToJ)).bind fun tIss =>
      (enumIssues (imageIssue1 (i + 1)) 0 (p.images.map imageToJ)).map fun iIss =>
      (if pyNeIntJ (.int p.page_number) (Int.ofNat (i + 1)) then
        ["Page " ++ toString (i + 1) ++ ": Page number mismatch: expected " ++
          toString (i + 1) ++ ", got " ++ pyStr (.int p.page_number)]
       else []) ++ tIss ++ iIss := rfl
  obtain ⟨tIss, htIss, hiff⟩ := enumIssues_tables (i + 1) p.tables htid 0
  have hne : pyNeIntJ (JVal.int p.page_number) (Int.ofNat (i + 1)) = false := by
    have hpe : p.page_number = Int.ofNat (i + 1) := by
      rw [hnum]
      rfl
    exact decide_eq_false (not_not_intro hpe)
  refine ⟨tIss, ?_, hiff⟩
  rw [hform, htIss, Option.some_bind, enumIssues_images (i + 1) p.images him 0,
    Option.map_some', hne]
  rw [if_neg (by decide : ¬ false = true)]
  rw [List.nil_append, List.append_nil]

theorem enumIssues_pages (ps : List Page) :
    ∀ start : Nat,
    (∀ (k : Nat) (hk : k < ps.length),
      (ps.get ⟨k, hk⟩).page_number = Int.ofNat (start + k) + 1) →
    (∀ p ∈ ps, (∀ t ∈ p.tables, t.table_id ≠ "") ∧
      ∀ im ∈ p.images, im.image_id ≠ "" ∧ im.path ≠ "") →
    ∃ iss, enumIssues pageIssues1 start (ps.map pageToJ) = some iss ∧
      (iss = [] ↔ ∀ p ∈ ps, ∀ t ∈ p.tables, t.data ≠ []) := by
  induction ps with
  | nil => intro start _ _; exact ⟨[], rfl, by simp⟩
  | cons p ps ih =>
    intro start hnum hids
    obtain ⟨iss1, h1, hiff1⟩ := pageIssues1_eval start p
      (by simpa using hnum 0 (Nat.succ_pos _))
      (hids p (List.mem_cons_self _ _)).1
      (hids p (List.mem_cons_self _ _)).2
    obtain ⟨iss2, h2, hiff2⟩ := ih (start + 1)
      (by
        intro k hk
        have hh := hnum (k + 1) (Nat.succ_lt_succ hk)
        have hsh : start + (k + 1) = start + 1 + k := by omega
        rw [hsh] at hh
        exact hh)
      (fun q hq => hids q (List.mem_cons_of_mem _ hq))
    refine ⟨iss1 ++ iss2, ?_, ?_⟩
    · have hc : enumIssues pageIssues1 start ((p :: ps).map pageToJ) =
          (pageIssues1 start (pageToJ p)).bind fun a =>
          (enumIssues pageIssues1 (start + 1) (ps.map pageToJ)).map fun b =>
            a ++ b := rfl
      rw [hc, h1, Option.some_bind, h2, Option.map_some']
    · rw [List.append_eq_nil, hiff1, hiff2]
      constructor
      · rintro ⟨ha, hb⟩ u hu
        rcases List.mem_cons.mp hu with rfl | hu2
        · exact ha
        · exact hb u hu2
      · intro hall
        exact ⟨hall _ (List.mem_cons_self _ _),
          fun u hu => hall u (List.mem_cons_of_mem _ hu)⟩

theorem verifyStructure_docToJ (d : Document) :
    verifyStructure (docToJ d) =
      (enumIssues pageIssues1 0 (d.pages.map pageToJ)).bind fun pgIss =>
      (structSummaryOf (d.pages.map pageToJ).length (d.pages.map pageToJ)).map
        fun summ =>
      { structure_valid := ((if pyNeIntJ (.int d.metadata.page_count)
            (Int.ofNat (d.pages.map pageToJ).length) then
            ["Page count mismatch: expected " ++ pyStr (.int d.metadata.page_count) ++
              ", got " ++ toString (d.pages.map pageToJ).length]
           else []) ++ pgIss).isEmpty
        issues := (if pyNeIntJ (.int d.metadata.page_count)
            (Int.ofNat (d.pages.map pageToJ).length) then
            ["Page count mismatch: expected " ++ pyStr (.int d.metadata.page_count) ++
              ", got " ++ toString (d.pages.map pageToJ).length]
           else []) ++ pgIss
        structure_summary := some summ } := rfl

/-- Claim C1 (amended): for every document actually produced by the assembly
operation from an element list and a non-negative page count,
`verify_structure` succeeds and reports `valid = true` exactly when every
assembled table has non-empty grid data.  (Unconditional validity, as claimed,
is refuted by the counterexample below: a table root with no `TD` cells is
assembled with `data == []`, which `verify_structure` flags as
`Table t1 missing data`.) -/
theorem c1_assembled_verifies (els : List Element) (P : Int)
    (f v lg ts : String) (doc : Document) (hP : 0 ≤ P)
    (hdoc : restructureOutput els P f v lg ts = some doc) :
    ∃ r, verifyStructure (docToJ doc) = some r ∧
      (r.structure_valid = true ↔
        ∀ p ∈ doc.pages, ∀ t ∈ p.tables, t.data ≠ []) := by
  rcases restructure_inv hdoc with ⟨txts, tbls, imgs, ht, htb, him, rfl⟩
  rw [verifyStructure_docToJ]
  dsimp only
  have htid : ∀ p ∈ (List.range P.toNat).map (fun i =>
      (⟨Int.ofNat i + 1, txts.getD i "", tbls.getD i [], imgs.getD i []⟩ : Page)),
      (∀ t ∈ p.tables, t.table_id ≠ "") ∧
        ∀ w ∈ p.images, w.image_id ≠ "" ∧ w.path ≠ "" := by
    intro p hp
    rcases List.mem_map.mp hp with ⟨i, _, rfl⟩
    dsimp only
    constructor
    · intro t htm
      rcases @classFold_mem Table isTableEl (mkTableInfo els) els
          (List.replicate P.toNat []) tbls htb i t htm with hbase | ⟨e, n, _, _, hmk⟩
      · rw [getD_replicate_self] at hbase
        exact absurd hbase (List.not_mem_nil t)
      · unfold mkTableInfo at hmk
        cases hx : extractTableData e els with
        | none => rw [hx] at hmk; cases hmk
        | some d0 =>
          rw [hx, Option.map_some'] at hmk
          cases hmk
          show ("t" ++ toString (n + 1)) ≠ ""
          exact append_ne_empty_of_left_ne _ _ (by decide)
    · intro w hw
      rcases @classFold_mem Image isFigureEl (mkImageInfo els) els
          (List.replicate P.toNat []) imgs him i w hw with hbase | ⟨e, n, _, _, hmk⟩
      · rw [getD_replicate_self] at hbase
        exact absurd hbase (List.not_mem_nil w)
      · unfold mkImageInfo at hmk
        dsimp only at hmk
        cases hmk
        constructor
        · show ("i" ++ toString (n + 1)) ≠ ""
          exact append_ne_empty_of_left_ne _ _ (by decide)
        · show ("images/page" ++ toString (e.Page + 1) ++ "_" ++
            ("i" ++ toString (n + 1)) ++ ".png") ≠ ""
          exact append_ne_empty_of_left_ne _ _ (append_ne_empty_of_left_ne _ _
            (append_ne_empty_of_left_ne _ _ (append_ne_empty_of_left_ne _ _
              (by decide))))
  have hnum : ∀ (k : Nat) (hk : k < ((List.range P.toNat).map (fun i =>
      (⟨Int.ofNat i + 1, txts.getD i "", tbls.getD i [],
        imgs.getD i []⟩ : Page))).length),
      (((List.range P.toNat).map fun i =>
        (⟨Int.ofNat i + 1, txts.getD i "", tbls.getD i [],
          imgs.getD i []⟩ : Page)).get ⟨k, hk⟩).page_number =
        Int.ofNat (0 + k) + 1 := by
    intro k hk
    rw [List.get_eq_getElem, List.getElem_map, List.getElem_range, Nat.zero_add]
  obtain ⟨pgIss, hpg, hpgiff⟩ := enumIssues_pages
    ((List.range P.toNat).map fun i =>
      (⟨Int.ofNat i + 1, txts.getD i "", tbls.getD i [], imgs.getD i []⟩ : Page))
    0 hnum htid
  rw [hpg, Option.some_bind]
  obtain ⟨summ, hsumm⟩ := structSummaryOf_pages
    ((((List.range P.toNat).map fun i =>
      (⟨Int.ofNat i + 1, txts.getD i "", tbls.getD i [],
        imgs.getD i []⟩ : Page)).map pageToJ).length)
    ((List.range P.toNat).map fun i =>
      (⟨Int.ofNat i + 1, txts.getD i "", tbls.getD i [], imgs.getD i []⟩ : Page))
  rw [hsumm, Option.map_some']
  have hcnt : pyNeIntJ (JVal.int P)
      (Int.ofNat ((((List.range P.toNat).map fun i =>
        (⟨Int.ofNat i + 1, txts.getD i "", tbls.getD i [],
          imgs.getD i []⟩ : Page)).map pageToJ).length)) = false := by
    have hlen : ((((List.range P.toNat).map fun i =>
        (⟨Int.ofNat i + 1, txts.getD i "", tbls.getD i [],
          imgs.getD i []⟩ : Page)).map pageToJ).length) = P.toNat := by
      rw [List.length_map, List.length_map, List.length_range]
    rw [hlen]
    exact decide_eq_false (not_not_intro (Int.toNat_of_nonneg hP).symm)
  rw [hcnt]
  refine ⟨_, rfl, ?_⟩
  dsimp only
  rw [if_neg (by decide : ¬ false = true), List.nil_append]
  exact List.isEmpty_iff.trans hpgiff

/-- Counterexample to C1 as stated: assembling a well-formed element list (one
table root with no `TD` cells, page count `1`) yields a document whose only
table has `data == []`; `verify_structure` then reports `valid = false`
(issue `Page 1: Table t1 missing data`), so assembly output is not always
reported valid. -/
theorem c1_counterexample :
    ((restructureOutput [{ Path := "//Document/Table[1]" }] 1
        "doc.pdf" "v" "en" "ts").bind
      fun doc => verifyStructure (docToJ doc)).map (fun r => r.structure_valid) =
      some false := by
  decide

/-- Witness for C1 (amended): the empty element list with page count `1`
assembles to a one-page document with no tables, and the verifier accepts it. -/
theorem c1_assembled_verifies_witness :
    (0 : Int) ≤ 1 ∧
    ∃ r, verifyStructure (docToJ
        { document_id := pathStem "a.pdf"
          metadata := ⟨"a.pdf", 1, "", "", ""⟩
          pages := [⟨1, "", [], []⟩] }) = some r ∧
      (r.structure_valid = true ↔
        ∀ p ∈ ({ document_id := pathStem "a.pdf"
                 metadata := ⟨"a.pdf", 1, "", "", ""⟩
                 pages := [⟨1, "", [], []⟩] } : Document).pages,
          ∀ t ∈ p.tables, t.data ≠ []) :=
  ⟨by decide, c1_assembled_verifies [] 1 "a.pdf" "" "" "" _ (by decide) (by rfl)⟩
